import Mathlib

/-!
Verification of the IngreSure dietary-compliance core against its specification.

This file shallowly embeds the Python core of the repository in Lean 4:
pure functions become Lean functions, the per-request mutable state of the
ingredient registry and of the API cache is passed explicitly, machine floats
are embedded as exact rationals, and external I/O (HTTP fetches, the unknown
ingredient log) is represented by explicit function parameters and event lists.
Python str.lower is modelled on the ASCII range, which covers every string
constant appearing in the embedded code.
-/

namespace IngreSure

/-! ## Character and string primitives (Python semantics, ASCII range) -/

/-- Python whitespace characters recognised by str.strip and str.split. -/
def isSpaceChar (c : Char) : Bool :=
  c = ' ' || c = '\t' || c = '\n' || c = '\r' || c = '\x0b' || c = '\x0c'

/-- Python str.lower restricted to ASCII letters. -/
def pyLowerChar (c : Char) : Char :=
  if 'A' ≤ c ∧ c ≤ 'Z' then Char.ofNat (c.toNat + 32) else c

/-- Python str.strip on a character list: drop leading and trailing whitespace. -/
def stripChars (l : List Char) : List Char :=
  ((l.dropWhile isSpaceChar).reverse.dropWhile isSpaceChar).reverse

/-- Python str.strip. -/
def pyStrip (s : String) : String := String.mk (stripChars s.data)

/-- Python str.lower. -/
def pyLower (s : String) : String := String.mk (s.data.map pyLowerChar)

/-- Auxiliary splitter: cut a character list at whitespace, keeping empty chunks.
The result is always nonempty. -/
def splitWsAux : List Char → List (List Char)
  | [] => [[]]
  | c :: rest =>
    match splitWsAux rest, isSpaceChar c with
    | ws, true => [] :: ws
    | [], false => [[c]]
    | w :: ws, false => (c :: w) :: ws

/-- Python str.split with no argument: whitespace-separated words, empties dropped. -/
def splitWs (l : List Char) : List (List Char) :=
  (splitWsAux l).filter (fun w => w ≠ [])

/-- Python str.split on a whole string. -/
def pySplitWs (s : String) : List String :=
  (splitWs s.data).map String.mk

/-- Join words with single spaces. -/
def joinSpace : List (List Char) → List Char
  | [] => []
  | [w] => w
  | w :: ws => w ++ ' ' :: joinSpace ws

/-! ## core/normalization/normalizer.py -/

/-- Punctuation replaced by a space in normalize_ingredient_key:
the regex class in re.sub applied there. -/
def isPunctChar (c : Char) : Bool :=
  c = ',' || c = ';' || c = ':' || c = '-' || c = '–' || c = '—'

/-- One character of the normalization pipeline after lowering:
stars and dots removed, punctuation turned into a space. -/
def punctRepl (c : Char) : Char := if isPunctChar c then ' ' else c

/-- KNOWN_VARIANTS from core/normalization/normalizer.py: spelling variants
mapped to the canonical ontology key. -/
def KNOWN_VARIANTS : List (String × String) :=
  [ ("inglass", "isinglass"), ("isinglass", "isinglass"),
    ("fish gelatin", "isinglass"), ("fish bladder", "isinglass"),
    ("confectioners glaze", "shellac"), ("confectioner\x27s glaze", "shellac"),
    ("resinous glaze", "shellac"), ("pharmaceutical glaze", "shellac"),
    ("e904", "shellac"),
    ("l cysteine", "l-cysteine"), ("cysteine", "l-cysteine"), ("e920", "l-cysteine"),
    ("wool grease", "lanolin"), ("wool wax", "lanolin"), ("wool fat", "lanolin"),
    ("anchovie", "anchovy"), ("anchovies", "anchovy"),
    ("anchovy paste", "anchovy"), ("anchovy extract", "anchovy"),
    ("eggs", "egg"), ("onions", "onion"), ("potatoes", "potato"),
    ("tomatoes", "tomato"), ("carrots", "carrot"), ("mushrooms", "mushroom"),
    ("almonds", "almond"), ("walnuts", "walnut"), ("cashews", "cashew"),
    ("peanuts", "peanut"), ("prawns", "prawn"), ("shrimps", "shrimp"),
    ("oats", "oat"), ("raisins", "raisin"), ("olives", "olive"),
    ("lemons", "lemon"), ("limes", "lime"), ("oranges", "orange"),
    ("bananas", "banana"), ("apples", "apple"), ("grapes", "grape"),
    ("berries", "berry"), ("cherries", "cherry"), ("strawberries", "strawberry"),
    ("blueberries", "blueberry"), ("raspberries", "raspberry"),
    ("cranberries", "cranberry"), ("sardines", "sardine"),
    ("mackerels", "mackerel"), ("clams", "clam"), ("mussels", "mussel"),
    ("oysters", "oyster"), ("scallops", "scallop"), ("lobsters", "lobster"),
    ("crabs", "crab"),
    ("gelatine", "gelatin"),
    ("e120", "carmine"), ("e441", "gelatin"), ("e542", "bone phosphate"),
    ("e631", "disodium inosinate"), ("e901", "beeswax"), ("e966", "lactitol"),
    ("animal rennet", "rennet") ]

/-- The words of normalize_ingredient_key before the variant map: lowercase the
text, remove every star and dot, turn the punctuation class into spaces, and
read off the whitespace-separated words. The source expresses the last step as
re.sub of consecutive punctuation to one space, re.sub of consecutive
whitespace to one space, and strip at both ends; joining the words with single
spaces below is the same string, and the leading strip in the source only
removes end whitespace, which the word split discards anyway. -/
def normalizeWords (text : String) : List (List Char) :=
  splitWs (((text.data.map pyLowerChar).filter
    (fun c => c ≠ '*' ∧ c ≠ '.')).map punctRepl)

/-- normalize_ingredient_key before applying KNOWN_VARIANTS. -/
def basicKey (text : String) : String :=
  String.mk (joinSpace (normalizeWords text))

/-- normalize_ingredient_key from core/normalization/normalizer.py. -/
def normalize_ingredient_key (text : String) : String :=
  let t := basicKey text
  match KNOWN_VARIANTS.find? (fun p => p.1 = t) with
  | some p => p.2
  | none => t

/-! ## core/normalization/parser.py -/

/-- PROCESSED_FOOD_TO_BASE from core/normalization/parser.py: processed food
keys expanded to their base ingredients. -/
def PROCESSED_FOOD_TO_BASE : List (String × List String) :=
  [ ("potato chips", ["potato", "vegetable oil", "salt"]),
    ("potato chip", ["potato", "vegetable oil", "salt"]),
    ("french fries", ["potato", "vegetable oil", "salt"]),
    ("french fry", ["potato", "vegetable oil", "salt"]),
    ("tortilla chips", ["corn", "vegetable oil", "salt"]),
    ("tortilla chip", ["corn", "vegetable oil", "salt"]),
    ("corn chips", ["corn", "vegetable oil", "salt"]),
    ("corn chip", ["corn", "vegetable oil", "salt"]),
    ("pretzels", ["wheat flour", "salt", "yeast"]),
    ("pretzel", ["wheat flour", "salt", "yeast"]),
    ("crackers", ["wheat flour", "vegetable oil", "salt"]),
    ("cracker", ["wheat flour", "vegetable oil", "salt"]),
    ("bread", ["wheat flour", "water", "salt", "yeast"]),
    ("white bread", ["wheat flour", "water", "salt", "yeast"]),
    ("pasta", ["wheat flour", "water", "egg"]),
    ("spaghetti", ["wheat flour", "water", "egg"]),
    ("macaroni", ["wheat flour", "water", "egg"]),
    ("noodles", ["wheat flour", "water", "egg"]),
    ("rice noodles", ["rice flour", "water"]),
    ("couscous", ["wheat flour", "water"]),
    ("hummus", ["chickpea", "sesame", "olive oil", "lemon", "garlic"]),
    ("ketchup", ["tomato", "sugar", "vinegar", "salt"]),
    ("mustard", ["mustard seed", "vinegar", "salt"]),
    ("mayonnaise", ["egg", "vegetable oil", "vinegar"]),
    ("salsa", ["tomato", "onion", "pepper", "lime", "salt"]),
    ("soy sauce", ["soybean", "wheat", "salt", "water"]),
    ("teriyaki sauce", ["soy sauce", "sugar", "ginger", "garlic"]),
    ("bbq sauce", ["tomato", "vinegar", "sugar", "molasses"]),
    ("hot sauce", ["pepper", "vinegar", "salt"]),
    ("peanut butter", ["peanut", "salt", "vegetable oil"]),
    ("almond butter", ["almond", "salt", "vegetable oil"]),
    ("jam", ["fruit", "sugar", "pectin"]),
    ("jelly", ["fruit juice", "sugar", "pectin"]),
    ("marmalade", ["citrus", "sugar", "pectin"]),
    ("chocolate", ["cocoa", "sugar", "cocoa butter", "milk"]),
    ("dark chocolate", ["cocoa", "sugar", "cocoa butter"]),
    ("milk chocolate", ["cocoa", "sugar", "cocoa butter", "milk"]),
    ("ice cream", ["milk", "cream", "sugar", "egg"]),
    ("yogurt", ["milk", "bacterial culture"]),
    ("cheese", ["milk", "salt", "rennet"]),
    ("butter", ["milk", "salt"]),
    ("tofu", ["soybean", "water"]),
    ("tempeh", ["soybean", "water"]),
    ("seitan", ["wheat gluten", "water"]),
    ("plant-based meat", ["soy", "wheat", "vegetable oil", "flavoring"]),
    ("veggie burger", ["vegetable", "legume", "grain", "binding"]),
    ("vegan cheese", ["coconut oil", "starch", "flavoring"]),
    ("oat milk", ["oat", "water"]),
    ("almond milk", ["almond", "water"]),
    ("soy milk", ["soybean", "water"]),
    ("rice milk", ["rice", "water"]),
    ("coconut milk", ["coconut", "water"]) ]

/-- Lookup in the processed-food map. -/
def processedLookup (key : String) : Option (List String) :=
  (PROCESSED_FOOD_TO_BASE.find? (fun p => p.1 = key)).map (fun p => p.2)

/-- Decide whether a comma at this position splits, for the source regex
that splits on a comma only when no closing parenthesis follows it before
any opening one: the negative lookahead of non-open-paren characters then a
close paren fails exactly when the first parenthesis in the remaining text
is an opening one, or there is none. -/
def commaSplits : List Char → Bool
  | [] => true
  | c :: rest =>
    if c = '(' then true
    else if c = ')' then false
    else commaSplits rest

/-- re.split on a comma outside parentheses, keeping empty segments,
as used by flatten_ingredients. -/
def splitTopCommas : List Char → List (List Char)
  | [] => [[]]
  | c :: rest =>
    if c = ',' ∧ commaSplits rest then
      [] :: splitTopCommas rest
    else
      match splitTopCommas rest with
      | [] => [[c]]
      | seg :: segs => (c :: seg) :: segs

/-- Split a comma-separated inner parenthetical, as re.split of a comma with
surrounding whitespace; the source strips each part again afterwards, so
plain comma chunks give the same parts. -/
def splitCommaSimple (l : List Char) : List (List Char) :=
  l.splitOn ','

/-- The index loop of _split_by_parentheses, expressed over the remaining
characters with the pending chunk carried in buf, and with the recursive
handling of a closed top-level parenthesised group abstracted as go. -/
def sbpLevel (go : List Char → List String) : List Char → Int → List Char →
    List String → List String
  | [], depth, buf, out =>
    if depth = 0 ∧ stripChars buf ≠ [] then out ++ [String.mk (stripChars buf)] else out
  | c :: rest, depth, buf, out =>
    if c = '(' then
      let out1 := if depth = 0 ∧ buf ≠ [] ∧ stripChars buf ≠ [] then
          out ++ [String.mk (stripChars buf)] else out
      if depth + 1 = 1 then sbpLevel go rest (depth + 1) [] out1
      else sbpLevel go rest (depth + 1) (buf ++ ['(']) out1
    else if c = ')' then
      if depth - 1 = 0 then
        let inner := stripChars buf
        let parts := ((splitCommaSimple inner).map stripChars).filter (fun p => p ≠ [])
        sbpLevel go rest (depth - 1) [] (out ++ parts.flatMap go)
      else sbpLevel go rest (depth - 1) (buf ++ [')']) out
    else sbpLevel go rest depth (buf ++ [c]) out

/-- The recursive call of _split_by_parentheses on one comma part of a
closed group, at the given remaining fuel: the entry blank test of the
function followed by its loop one level down. The fuel bounds the nesting
depth of the recursion; every recursive call of the source receives a
strict substring of the text, so a fuel of the text length always
suffices. -/
def partGo : Nat → List Char → List String
  | 0, _ => []
  | fuel + 1, p =>
    if stripChars p = [] then [] else sbpLevel (partGo fuel) p 0 [] []

/-- The loop of _split_by_parentheses at a given fuel. -/
def sbpLoop (fuel : Nat) (cs : List Char) (depth : Int) (buf : List Char)
    (out : List String) : List String :=
  sbpLevel (partGo fuel) cs depth buf out

/-- One call of _split_by_parentheses at a given fuel. -/
def sbpGo (fuel : Nat) (text : String) : List String :=
  if stripChars text.data = [] then [] else sbpLoop fuel text.data 0 [] []

/-- _split_by_parentheses from core/normalization/parser.py. -/
def split_by_parentheses (text : String) : List String :=
  sbpGo text.data.length text

/-- The deduplication at the end of flatten_ingredients: keep the first
occurrence of each nonempty item, in order. -/
def pyDedup (l : List String) (seen : List String := []) : List String :=
  match l with
  | [] => []
  | x :: xs => if x ≠ "" ∧ x ∉ seen then x :: pyDedup xs (x :: seen) else pyDedup xs seen

/-- The atoms contributed by one top-level comma segment of
flatten_ingredients: the body of the outer loop of the source, from the
strip of the segment through the processed-food expansion of each
parenthesis part. -/
def segAtoms (segChars : List Char) : List String :=
  let seg := pyStrip (String.mk segChars)
  if seg = "" then [] else
  (split_by_parentheses seg).flatMap (fun p =>
    let p2 := pyStrip p
    if p2 = "" then [] else
    let pk := normalize_ingredient_key p2
    match processedLookup pk with
    | some bases => bases
    | none => if pk ≠ "" then [pk] else [])

/-- The flat list built by flatten_ingredients before deduplication
(the local variable named flat in the source), preceded by the whole-string
processed-food expansion path. -/
def atomStream (raw_str : String) : List String :=
  let raw := pyStrip raw_str
  if raw = "" then [] else
  match processedLookup (normalize_ingredient_key raw) with
  | some bases => bases
  | none => (splitTopCommas raw.data).flatMap segAtoms

/-- flatten_ingredients from core/normalization/parser.py. -/
def flatten_ingredients (raw_str : String) : List String :=
  let raw := pyStrip raw_str
  if raw = "" then [] else
  match processedLookup (normalize_ingredient_key raw) with
  | some bases => bases
  | none => pyDedup (atomStream raw_str)

/-! ## core/ontology/ingredient_schema.py -/

/-- Ingredient from core/ontology/ingredient_schema.py. Floats are embedded
as rationals. -/
structure Ingredient where
  id : String
  canonical_name : String
  aliases : List String := []
  derived_from : List String := []
  contains : List String := []
  may_contain : List String := []
  animal_origin : Bool := false
  plant_origin : Bool := false
  synthetic : Bool := false
  fungal : Bool := false
  insect_derived : Bool := false
  animal_species : Option String := none
  egg_source : Bool := false
  dairy_source : Bool := false
  gluten_source : Bool := false
  nut_source : Option String := none
  soy_source : Bool := false
  sesame_source : Bool := false
  alcohol_content : Option ℚ := none
  root_vegetable : Bool := false
  onion_source : Bool := false
  garlic_source : Bool := false
  fermented : Bool := false
  uncertainty_flags : List String := []
  regions : List String := []
deriving DecidableEq

/-- The meat_fish_derived property of Ingredient. -/
def Ingredient.meat_fish_derived (i : Ingredient) : Bool :=
  i.animal_origin && !i.dairy_source && !i.egg_source && !i.insect_derived

/-! ## core/restrictions/restriction_schema.py and restriction_registry.py -/

/-- Python values flowing through the rule DSL: nulls, booleans, strings,
numbers and lists, as read from JSON rule files and Ingredient fields. -/
inductive PyVal where
  | none
  | bool (b : Bool)
  | str (s : String)
  | num (q : ℚ)
  | list (l : List PyVal)

mutual

/-- Python equality between DSL values; a boolean compares equal to its
numeric value as in Python. -/
def pyEq : PyVal → PyVal → Bool
  | .none, .none => true
  | .bool a, .bool b => a = b
  | .bool a, .num q => (if a then (1 : ℚ) else 0) = q
  | .num q, .bool a => q = (if a then (1 : ℚ) else 0)
  | .num p, .num q => p = q
  | .str s, .str t => s = t
  | .list l, .list m => pyEqList l m
  | _, _ => false

/-- Pointwise Python equality of lists. -/
def pyEqList : List PyVal → List PyVal → Bool
  | [], [] => true
  | a :: l, b :: m => pyEq a b && pyEqList l m
  | _, _ => false

end

/-- Python str applied to a DSL value, as used by the contains operator; only
string and boolean receipts occur for the embedded Ingredient fields, the
remaining cases are written out for totality. -/
def pyStr : PyVal → String
  | .none => "None"
  | .bool b => if b then "True" else "False"
  | .str s => s
  | .num q => toString q
  | .list _ => "[...]"

/-- Python float conversion with failure, as used by the greater_than
operator; a failing conversion is caught in the source and the rule does not
match. Numeric string literals are not used as rule values in the data files
and are not modelled. -/
def pyFloat : PyVal → Option ℚ
  | .num q => some q
  | .bool b => some (if b then 1 else 0)
  | _ => Option.none

/-- RuleAction from core/restrictions/restriction_schema.py. -/
inductive RuleAction where
  | FAIL
  | WARN
deriving DecidableEq

/-- The string value of a RuleAction. -/
def RuleAction.value : RuleAction → String
  | .FAIL => "FAIL"
  | .WARN => "WARN"

/-- Rule from core/restrictions/restriction_schema.py. -/
structure Rule where
  field : String
  operator : String
  value : PyVal
  action : RuleAction := .FAIL

/-- Restriction from core/restrictions/restriction_schema.py; category and
severity are carried as their string values. -/
structure Restriction where
  id : String
  category : String := "lifestyle"
  region_scope : List String := ["GLOBAL"]
  severity : String := "STRICT"
  rules : List Rule

/-- _get_ingredient_value from core/restrictions/restriction_registry.py:
read an Ingredient field by name, the meat_fish_derived property included;
an unknown field name gives null. -/
def getIngredientValue (ing : Ingredient) (field : String) : PyVal :=
  match field with
  | "id" => .str ing.id
  | "canonical_name" => .str ing.canonical_name
  | "aliases" => .list (ing.aliases.map .str)
  | "derived_from" => .list (ing.derived_from.map .str)
  | "contains" => .list (ing.contains.map .str)
  | "may_contain" => .list (ing.may_contain.map .str)
  | "animal_origin" => .bool ing.animal_origin
  | "plant_origin" => .bool ing.plant_origin
  | "synthetic" => .bool ing.synthetic
  | "fungal" => .bool ing.fungal
  | "insect_derived" => .bool ing.insect_derived
  | "animal_species" => match ing.animal_species with
    | some s => .str s
    | _ => .none
  | "egg_source" => .bool ing.egg_source
  | "dairy_source" => .bool ing.dairy_source
  | "gluten_source" => .bool ing.gluten_source
  | "nut_source" => match ing.nut_source with
    | some s => .str s
    | _ => .none
  | "soy_source" => .bool ing.soy_source
  | "sesame_source" => .bool ing.sesame_source
  | "alcohol_content" => match ing.alcohol_content with
    | some q => .num q
    | _ => .none
  | "root_vegetable" => .bool ing.root_vegetable
  | "onion_source" => .bool ing.onion_source
  | "garlic_source" => .bool ing.garlic_source
  | "fermented" => .bool ing.fermented
  | "uncertainty_flags" => .list (ing.uncertainty_flags.map .str)
  | "regions" => .list (ing.regions.map .str)
  | "meat_fish_derived" => .bool ing.meat_fish_derived
  | _ => .none

/-- _evaluate_rule from core/restrictions/restriction_registry.py: true when
the rule condition is satisfied. A contains with a non-string target against
a scalar field raises in the source and never appears in the rule data; it is
modelled as no match. -/
def evalRule (ing : Ingredient) (rule : Rule) : Bool :=
  let val := getIngredientValue ing rule.field
  let target := rule.value
  match rule.operator with
  | "equals" => pyEq val target
  | "not_equals" => !pyEq val target
  | "contains" =>
    match val with
    | .none => false
    | .list l => l.any (fun x => pyEq x target)
    | v => match target with
      | .str t => decide (t.data <:+: (pyStr v).data)
      | _ => false
  | "greater_than" =>
    match val, pyFloat val, pyFloat target with
    | .none, _, _ => false
    | _, some a, some b => a > b
    | _, _, _ => false
  | "in_list" =>
    match val with
    | .none => false
    | v => match target with
      | .list m => m.any (fun x => pyEq x v)
      | t => pyEq t v
  | _ => false

/-- The rule scan of RestrictionRegistry.evaluate, iterating the rules in
order and answering with the first match. -/
def scanRules (ing : Ingredient) (rid : String) : List Rule → String × Option String
  | [] => ("PASS", Option.none)
  | rule :: rest =>
    if evalRule ing rule then
      (rule.action.value,
        some (rid ++ ": " ++ rule.field ++ " " ++ rule.operator ++ " " ++ pyStr rule.value))
    else scanRules ing rid rest

/-- RestrictionRegistry.evaluate from core/restrictions/restriction_registry.py. -/
def RestrictionRegistry.evaluate (ing : Ingredient) (r : Restriction) :
    String × Option String :=
  scanRules ing r.id r.rules

/-! ## core/external_apis/base.py -/

/-- EnrichmentResult from core/external_apis/base.py. -/
structure EnrichmentResult where
  ingredient : Option Ingredient
  confidence : String
  source : String
  raw_response_summary : String := ""
deriving DecidableEq

/-! ## core/ontology/ingredient_registry.py -/

/-- _SENTENCE_VERBS from core/ontology/ingredient_registry.py. -/
def SENTENCE_VERBS : List String :=
  ["eat", "can", "have", "does", "allow", "permit", "is", "are", "do", "will",
   "should", "could", "would", "may", "might", "shall", "make", "tell", "check",
   "know", "find", "safe", "ok", "okay"]

/-- _DIET_WORDS from core/ontology/ingredient_registry.py. -/
def DIET_WORDS : List String :=
  ["jain", "vegan", "vegetarian", "halal", "kosher", "hindu", "pescatarian",
   "lacto", "ovo", "sikh", "buddhist"]

/-- The extra stopwords of the majority check in _is_valid_ingredient_input. -/
def EXTRA_STOPWORDS : List String := ["i", "my", "me", "a", "the", "for", "to"]

/-- _is_valid_ingredient_input from core/ontology/ingredient_registry.py.
The emptiness test of the stripped string is equivalent to the word list of
the string being empty. -/
def is_valid_ingredient_input (s : String) : Bool :=
  if s = "" ∨ pyStrip s = "" then false
  else
    let words := pySplitWs (pyLower s)
    if words.length > 5 then false
    else
      let has_verb := words.any (fun w => w ∈ SENTENCE_VERBS)
      let has_diet := words.any (fun w => w ∈ DIET_WORDS)
      if has_verb ∧ has_diet then false
      else
        let stopword_count := (words.filter
          (fun w => w ∈ SENTENCE_VERBS ∨ w ∈ EXTRA_STOPWORDS)).length
        if words.length > 2 ∧ stopword_count * 2 > words.length then false
        else true

/-- Side effects of a resolve_with_fallback call, in execution order:
an unknown-ingredient log write, an external-API fetch, an append to the
dynamic ontology file, an in-memory registry insert. -/
inductive ResolverEvent where
  | logUnknown (raw key : String)
  | apiFetch (key : String)
  | appendDynamic (canonical : String)
  | addIngredient (canonical : String)
deriving DecidableEq

/-- One loaded state of IngredientRegistry: the merged key index (a snapshot
of the by-key dict, keys unique), the set of keys that came from the static
ontology, the loaded ontology version, and the outcome the external-API
fetcher would produce for a normalized key (enrich_unknown_ingredient). -/
structure RegistryState where
  byKey : List (String × Ingredient)
  staticKeys : List String
  version : String
  apiResult : String → EnrichmentResult

/-- The dict lookup of the in-memory index. -/
def lookupKey (st : RegistryState) (key : String) : Option Ingredient :=
  (st.byKey.find? (fun p => p.1 = key)).map (fun p => p.2)

/-- IngredientRegistry.resolve: normalize and look up; static and dynamic
only. -/
def IngredientRegistry.resolve (st : RegistryState) (ingredient_str : String) :
    Option Ingredient :=
  lookupKey st (normalize_ingredient_key ingredient_str)

/-- IngredientRegistry.resolve_with_source. -/
def resolve_with_source (st : RegistryState) (ingredient_str : String) :
    Option Ingredient × String :=
  let key := normalize_ingredient_key ingredient_str
  match lookupKey st key with
  | Option.none => (Option.none, "static")
  | some ing => (some ing, if key ∈ st.staticKeys then "static" else "dynamic")

/-- IngredientRegistry.resolve_with_fallback from
core/ontology/ingredient_registry.py. The returned triple is the Python
return value; the event list records the side effects in order. The
in-memory insert after a high-confidence API hit is recorded as an event;
it only affects later duplicate lookups, which then resolve to the same
ingredient at the same confidence, so the registry value is threaded
immutably. -/
def resolve_with_fallback (st : RegistryState) (ingredient_str : String)
    (try_api : Bool := true) (log_unknown : Bool := true) :
    (Option Ingredient × String × String) × List ResolverEvent :=
  let key := normalize_ingredient_key ingredient_str
  match resolve_with_source st ingredient_str with
  | (some ing, source) => ((some ing, source, "high"), [])
  | (Option.none, _) =>
    if ¬ is_valid_ingredient_input key then
      ((Option.none, "static", "low"), [])
    else
      let ev0 : List ResolverEvent :=
        if log_unknown then [.logUnknown ingredient_str key] else []
      if ¬ try_api then ((Option.none, "static", "low"), ev0)
      else
        let result := st.apiResult key
        let ev1 := ev0 ++ [.apiFetch key]
        match result.ingredient with
        | Option.none => ((Option.none, "api", "low"), ev1)
        | some ing =>
          if result.confidence = "high" then
            ((some ing, "api", "high"),
              ev1 ++ [.appendDynamic ing.canonical_name, .addIngredient ing.canonical_name])
          else if result.confidence = "medium" then
            ((some ing, "api", "medium"), ev1)
          else ((Option.none, "api", "low"), ev1)

/-! ## core/external_apis/fetcher.py -/

/-- The configuration and connectors behind fetch_ingredient_from_apis: the
optional USDA key, the Open Food Facts switch, the two connectors as
functions of the query, and the cache-key derivation (a SHA-256 prefix in
the source, carried here as an opaque function). -/
structure FetchEnv where
  usdaKey : Option String
  offEnabled : Bool
  usda : String → EnrichmentResult
  off : String → EnrichmentResult
  cacheKey : String → String

/-- One cache slot of the module-level _api_cache dict:
cache key, stored result, timestamp. -/
structure CacheEntry where
  key : String
  result : EnrichmentResult
  timestamp : ℚ
deriving DecidableEq

/-- _CACHE_MAX_ENTRIES from core/external_apis/fetcher.py. -/
def CACHE_MAX_ENTRIES : Nat := 500

/-- Dict lookup in the cache. -/
def cacheLookup (cache : List CacheEntry) (k : String) : Option CacheEntry :=
  cache.find? (fun e => e.key = k)

/-- The connector cascade of fetch_ingredient_from_apis: USDA FDC when a key
is configured, then Open Food Facts, returning the best available result. -/
def fetchBest (env : FetchEnv) (query : String) : EnrichmentResult :=
  let best : Option EnrichmentResult :=
    match env.usdaKey with
    | some _ =>
      let res := env.usda query
      if res.ingredient.isSome ∧ res.confidence ≠ "low" then some res
      else if res.ingredient.isSome then some res
      else Option.none
    | Option.none => Option.none
  let best :=
    if env.offEnabled ∧ (best.isNone ∨ (best.map (fun b => b.confidence)).getD "" = "low") then
      let res2 := env.off query
      match res2.ingredient, best with
      | some _, Option.none => some res2
      | some _, some b =>
        if res2.confidence = "high" ∧ b.confidence ≠ "high" then some res2
        else if b.confidence = "medium" ∧ res2.confidence = "high" then some res2
        else some b
      | Option.none, b => b
    else best
  match best with
  | some b => b
  | Option.none => ⟨Option.none, "low", "none", "no_result"⟩

/-- fetch_ingredient_from_apis from core/external_apis/fetcher.py, with the
cache state and the current time passed explicitly. Returns the result and
the cache state after the call. On a cache hit the stored timestamp is read
but not compared with the current time; on a miss the result is inserted
only while the cache holds fewer than the maximum number of entries. -/
def fetch_ingredient_from_apis (env : FetchEnv) (cache : List CacheEntry)
    (now : ℚ) (normalized_ingredient_key : String) (use_cache : Bool := true) :
    EnrichmentResult × List CacheEntry :=
  let k := env.cacheKey normalized_ingredient_key
  match (if use_cache then cacheLookup cache k else Option.none) with
  | some e => (e.result, cache)
  | Option.none =>
    let query := pyStrip (String.mk (normalized_ingredient_key.data.map
      (fun c => if c = '_' then ' ' else c)))
    let best := fetchBest env query
    if use_cache ∧ cache.length < CACHE_MAX_ENTRIES then
      (best, cache ++ [⟨k, best, now⟩])
    else (best, cache)

/-! ## core/models/verdict.py -/

/-- VerdictStatus from core/models/verdict.py. -/
inductive VerdictStatus where
  | SAFE
  | NOT_SAFE
  | UNCERTAIN
deriving DecidableEq

/-- The string value of a VerdictStatus. -/
def VerdictStatus.value : VerdictStatus → String
  | .SAFE => "SAFE"
  | .NOT_SAFE => "NOT_SAFE"
  | .UNCERTAIN => "UNCERTAIN"

/-- ComplianceVerdict from core/models/verdict.py; the float score is an
exact rational. -/
structure ComplianceVerdict where
  status : VerdictStatus
  triggered_restrictions : List String := []
  triggered_ingredients : List String := []
  uncertain_ingredients : List String := []
  informational_ingredients : List String := []
  confidence_score : ℚ := 0
  ontology_version : String := ""
deriving DecidableEq

/-! ## core/evaluation/confidence.py -/

/-- Python round to four decimal places on exact rationals: nearest multiple
of one ten-thousandth, ties to the even multiple. -/
def pyRound4 (q : ℚ) : ℚ :=
  let x := q * 10000
  let f := ⌊x⌋
  let r := x - f
  let n : ℤ :=
    if r < 1/2 then f
    else if r > 1/2 then f + 1
    else if f % 2 = 0 then f else f + 1
  (n : ℚ) / 10000

/-- The per-level weights of compute_confidence, with the dict default of
zero for an unknown level. -/
def levelScore (l : String) : ℚ :=
  if l = "high" then 1
  else if l = "medium" then 7/10
  else if l = "low" then 0
  else if l = "api_failed" then 35/100
  else 0

/-- The effective resolution ratio of compute_confidence: level weights
averaged over the total when the levels align with it, else the plain
resolved fraction. -/
def effectiveRatio (total_ingredients resolved_count : Nat)
    (resolution_levels : Option (List String)) : ℚ :=
  match resolution_levels with
  | some levels =>
    if levels.length = total_ingredients then
      (levels.map levelScore).sum / total_ingredients
    else (resolved_count : ℚ) / total_ingredients
  | Option.none => (resolved_count : ℚ) / total_ingredients

/-- Whether compute_confidence saw an api_failed level; only read when the
levels align with the total, as in the source. -/
def hasApiFailed (total_ingredients : Nat)
    (resolution_levels : Option (List String)) : Bool :=
  match resolution_levels with
  | some levels =>
    if levels.length = total_ingredients then decide ("api_failed" ∈ levels)
    else false
  | Option.none => false

/-- The base value of compute_confidence: the effective ratio less the
uncertainty and conditional penalties, floored at zero, then capped at
two fifths when an api_failed level was seen. -/
def confidenceBase (total_ingredients resolved_count : Nat)
    (uncertain_ingredients : List String) (warning_count : Nat)
    (resolution_levels : Option (List String)) : ℚ :=
  let b := max 0 (effectiveRatio total_ingredients resolved_count
      resolution_levels
    - (uncertain_ingredients.length : ℚ) * (1/10)
    - (warning_count : ℚ) * (1/20))
  if hasApiFailed total_ingredients resolution_levels then min (2/5) b else b

/-- compute_confidence from core/evaluation/confidence.py; the local
variables of the source are split into the helper functions above. -/
def compute_confidence (total_ingredients : Nat) (resolved_count : Nat)
    (uncertain_ingredients : List String) (warning_count : Nat := 0)
    (resolution_levels : Option (List String) := Option.none)
    (triggered_only_by_minor : Bool := false)
    (has_minor_ingredients : Bool := false)
    (status : Option VerdictStatus := Option.none) : ℚ :=
  if total_ingredients = 0 then 0
  else
    let base := confidenceBase total_ingredients resolved_count
      uncertain_ingredients warning_count resolution_levels
    let status_val := (status.map VerdictStatus.value).getD ""
    if triggered_only_by_minor ∧ status_val = "NOT_SAFE" then
      pyRound4 (min (1/2) (max (1/5) base))
    else if has_minor_ingredients ∧ status_val = "SAFE" then
      pyRound4 (max (1/5) base)
    else pyRound4 base

/-! ## core/evaluation/compliance_engine.py -/

/-- The key the engine computes for each raw ingredient string before
resolving: lowercase and strip. -/
def pyKey (raw : String) : String := pyStrip (pyLower raw)

/-- The parallel accumulators of the resolve loop in
ComplianceEngine.evaluate: resolved ingredients paired with their trace
flag, the unresolved non-trace raws, the informational raws, and the
resolution levels. -/
structure ResolveState where
  resolved : List (Ingredient × Bool)
  uncertain : List String
  informational : List String
  levels : List String
deriving DecidableEq

/-- Componentwise concatenation of resolve-loop states. -/
def ResolveState.append (a b : ResolveState) : ResolveState :=
  ⟨a.resolved ++ b.resolved, a.uncertain ++ b.uncertain,
   a.informational ++ b.informational, a.levels ++ b.levels⟩

/-- The body of the resolve loop of ComplianceEngine.evaluate for one raw
ingredient string, as its contribution to the parallel accumulators. The
engine passes try_api as true and log_unknown as the negation of the trace
flag; the hasattr branch is taken exactly when use_api_fallback holds, since
the registry always has resolve_with_fallback. -/
def stepResolve (st : RegistryState) (trace_set : List String)
    (use_api_fallback : Bool) (raw : String) : ResolveState :=
  if pyKey raw = "" then ⟨[], [], [], []⟩
  else if use_api_fallback then
    match (resolve_with_fallback st raw true (!decide (pyKey raw ∈ trace_set))).1 with
    | (some ing, _, level) =>
      ⟨[(ing, decide (pyKey raw ∈ trace_set))], [],
        if pyKey raw ∈ trace_set then [raw] else [], [level]⟩
    | (Option.none, source, _) =>
      if pyKey raw ∈ trace_set then ⟨[], [], [raw], ["high"]⟩
      else if source = "api" then ⟨[], [raw], [], ["api_failed"]⟩
      else ⟨[], [raw], [], ["low"]⟩
  else
    match IngredientRegistry.resolve st raw with
    | Option.none =>
      if pyKey raw ∈ trace_set then ⟨[], [], [raw], ["high"]⟩
      else ⟨[], [raw], [], ["low"]⟩
    | some ing =>
      ⟨[(ing, decide (pyKey raw ∈ trace_set))], [],
        if pyKey raw ∈ trace_set then [raw] else [], ["high"]⟩

/-- The whole resolve loop of ComplianceEngine.evaluate; each iteration
appends independently to the four accumulators. -/
def resolveLoop (st : RegistryState) (trace_set : List String)
    (use_api_fallback : Bool) : List String → ResolveState
  | [] => ⟨[], [], [], []⟩
  | raw :: rest =>
    (stepResolve st trace_set use_api_fallback raw).append
      (resolveLoop st trace_set use_api_fallback rest)

/-- A loaded RestrictionRegistry: the by-id dict as a list of restrictions
with distinct ids, in insertion order. -/
structure RestrictionRegistryState where
  restrictions : List Restriction

/-- RestrictionRegistry.get. -/
def RestrictionRegistryState.get (rreg : RestrictionRegistryState)
    (rid : String) : Option Restriction :=
  rreg.restrictions.find? (fun r => r.id = rid)

/-- RestrictionRegistry.list_ids. -/
def RestrictionRegistryState.list_ids (rreg : RestrictionRegistryState) :
    List String :=
  rreg.restrictions.map (fun r => r.id)

/-- The restriction-id selection of ComplianceEngine.evaluate: the caller
list filtered to known ids when given, else every loaded id; then the
region filter when a nonempty region scope is given. -/
def selectedIds (rreg : RestrictionRegistryState)
    (restriction_ids : Option (List String)) (region_scope : Option String) :
    List String :=
  let ids := match restriction_ids with
    | some ids => ids.filter (fun rid => (rreg.get rid).isSome)
    | Option.none => rreg.list_ids
  match region_scope with
  | some rs =>
    if rs = "" then ids
    else ids.filter (fun rid =>
      match rreg.get rid with
      | some r => rs ∈ r.region_scope
      | Option.none => false)
  | Option.none => ids

/-- The restriction scan of ComplianceEngine.evaluate. The source appends to
each accumulator independently inside one nested loop over the selected ids
and the resolved ingredients, so each list is written here as the
concatenation over that same iteration order. -/
def rawTriggeredRestrictions (rreg : RestrictionRegistryState)
    (rest_ids : List String) (resolved : List (Ingredient × Bool)) : List String :=
  rest_ids.flatMap (fun rid =>
    match rreg.get rid with
    | Option.none => []
    | some rest => resolved.filterMap (fun p =>
        if (RestrictionRegistry.evaluate p.1 rest).1 = "FAIL" then some rid
        else Option.none))

/-- The triggered ingredient names collected by the same scan. -/
def rawTriggeredIngredients (rreg : RestrictionRegistryState)
    (rest_ids : List String) (resolved : List (Ingredient × Bool)) : List String :=
  rest_ids.flatMap (fun rid =>
    match rreg.get rid with
    | Option.none => []
    | some rest => resolved.filterMap (fun p =>
        if (RestrictionRegistry.evaluate p.1 rest).1 = "FAIL" then
          some p.1.canonical_name
        else Option.none))

/-- The set of restriction ids whose failure came from a trace ingredient,
collected by the same scan. -/
def minorTriggeredRestrictions (rreg : RestrictionRegistryState)
    (rest_ids : List String) (resolved : List (Ingredient × Bool)) : List String :=
  rest_ids.flatMap (fun rid =>
    match rreg.get rid with
    | Option.none => []
    | some rest => resolved.filterMap (fun p =>
        if (RestrictionRegistry.evaluate p.1 rest).1 = "FAIL" ∧ p.2 then some rid
        else Option.none))

/-- The warning count of the same scan. -/
def warningCount (rreg : RestrictionRegistryState)
    (rest_ids : List String) (resolved : List (Ingredient × Bool)) : Nat :=
  (rest_ids.flatMap (fun rid =>
    match rreg.get rid with
    | Option.none => []
    | some rest => resolved.filter (fun p =>
        (RestrictionRegistry.evaluate p.1 rest).1 = "WARN"))).length

/-- Deduplication preserving first occurrences, as dict.fromkeys in the
source. -/
def dedupKeepFirst (l : List String) (seen : List String := []) : List String :=
  match l with
  | [] => []
  | x :: xs =>
    if x ∈ seen then dedupKeepFirst xs seen else x :: dedupKeepFirst xs (x :: seen)

/-- ComplianceEngine.evaluate from core/evaluation/compliance_engine.py,
over a loaded ingredient registry state and restriction registry state. -/
def ComplianceEngine.evaluate (ireg : RegistryState)
    (rreg : RestrictionRegistryState) (ingredient_strings : List String)
    (restriction_ids : Option (List String) := Option.none)
    (region_scope : Option String := Option.none)
    (trace_ingredient_keys : List String := [])
    (use_api_fallback : Bool := true) : ComplianceVerdict :=
  if ingredient_strings = [] then
    { status := .UNCERTAIN
      uncertain_ingredients := []
      informational_ingredients := []
      confidence_score := 0
      ontology_version := ireg.version }
  else
    let st := resolveLoop ireg trace_ingredient_keys use_api_fallback ingredient_strings
    let rest_ids := selectedIds rreg restriction_ids region_scope
    let trigR := rawTriggeredRestrictions rreg rest_ids st.resolved
    let trigI := rawTriggeredIngredients rreg rest_ids st.resolved
    let fromMinor := minorTriggeredRestrictions rreg rest_ids st.resolved
    let warnings := warningCount rreg rest_ids st.resolved
    let triggered_restrictions := dedupKeepFirst trigR
    let triggered_ingredients := dedupKeepFirst trigI
    let status : VerdictStatus :=
      if triggered_restrictions ≠ [] then .NOT_SAFE
      else if st.uncertain ≠ [] then .UNCERTAIN
      else .SAFE
    let triggered_only_by_minor :=
      decide (triggered_restrictions ≠ []) &&
        triggered_restrictions.all (fun rid => rid ∈ fromMinor)
    let has_minor := decide (st.informational ≠ [])
    let confidence := compute_confidence ingredient_strings.length
      st.resolved.length st.uncertain warnings
      (if st.levels.length = ingredient_strings.length then some st.levels
       else Option.none)
      triggered_only_by_minor has_minor (some status)
    { status := status
      triggered_restrictions := triggered_restrictions
      triggered_ingredients := triggered_ingredients
      uncertain_ingredients := st.uncertain
      informational_ingredients := st.informational
      confidence_score := pyRound4 confidence
      ontology_version := ireg.version }

/-- The value a raw ingredient string resolves to inside the engine loop:
the fallback resolver under API fallback, the plain registry lookup
otherwise. The log_unknown argument does not influence the returned value. -/
def resolvesTo (st : RegistryState) (use_api_fallback : Bool) (raw : String) :
    Option Ingredient :=
  if use_api_fallback then (resolve_with_fallback st raw true true).1.1
  else IngredientRegistry.resolve st raw

/-- The resolution levels the engine accumulates for a list of raw
ingredient strings. -/
def engineLevels (st : RegistryState) (trace_set : List String)
    (use_api_fallback : Bool) (ingredient_strings : List String) : List String :=
  (resolveLoop st trace_set use_api_fallback ingredient_strings).levels

/-! ## core/profile_model.py -/

/-- UserProfile from core/profile_model.py. -/
structure UserProfile where
  user_id : String := ""
  dietary_preference : String := "No rules"
  allergens : List String := []
  lifestyle : List String := []
deriving DecidableEq

/-- The keyword arguments accepted by UserProfile.update_merge: the three
canonical fields and the two legacy aliases handled by the loop; a missing
key and an explicit Python None both appear as none here, since the loop
skips None values. Unknown extra keys are ignored by the source and are not
carried. -/
structure ProfileUpdate where
  dietary_preference : Option String := Option.none
  allergens : Option (List String) := Option.none
  lifestyle : Option (List String) := Option.none
  lifestyle_flags : Option (List String) := Option.none
  dietary_restrictions : Option (List String) := Option.none

/-- UserProfile.update_merge from core/profile_model.py, applying the
provided keys in the declaration order above. -/
def UserProfile.update_merge (p : UserProfile) (u : ProfileUpdate) : UserProfile :=
  let p := match u.dietary_preference with
    | Option.none => p
    | some v => { p with dietary_preference := if v = "" then "No rules" else v }
  let p := match u.allergens with
    | Option.none => p
    | some v => { p with allergens := v }
  let p := match u.lifestyle with
    | Option.none => p
    | some v => { p with lifestyle := v }
  let p := match u.lifestyle_flags with
    | Option.none => p
    | some v => { p with lifestyle := v }
  let p := match u.dietary_restrictions with
    | Option.none => p
    | some v =>
      if p.dietary_preference = "" ∨ p.dietary_preference = "No rules" then
        match v with
        | [] => p
        | x :: _ => { p with dietary_preference := x }
      else p
  p

/-! ## Helper lemmas -/

/-- Rounding to four decimals never exceeds an integer-lattice upper bound. -/
theorem pyRound4_le_of_le {q : ℚ} {k : ℤ} (h : q ≤ (k : ℚ) / 10000) :
    pyRound4 q ≤ (k : ℚ) / 10000 := by
  have hx : q * 10000 ≤ (k : ℚ) := by linarith
  have hf : ⌊q * 10000⌋ ≤ k := by
    have := Int.floor_mono hx
    simpa using this
  unfold pyRound4
  have hdiv : ∀ n : ℤ, n ≤ k → (n : ℚ) / 10000 ≤ (k : ℚ) / 10000 := by
    intro n hn
    apply div_le_div_of_nonneg_right _ (by norm_num)
    exact_mod_cast hn
  set x := q * 10000 with hxdef
  set f := ⌊x⌋ with hfdef
  have hfx : (f : ℚ) ≤ x := Int.floor_le x
  by_cases h1 : x - f < 1/2
  · simp only [if_pos h1]
    exact hdiv f hf
  · have hpos : (0 : ℚ) < x - f := by
      have : (1:ℚ)/2 ≤ x - f := le_of_not_lt h1
      linarith
    have hflt : f < k := by
      rcases lt_or_eq_of_le hf with h' | h'
      · exact h'
      · exfalso
        rw [h'] at hfx hpos
        have : x = (k : ℚ) := le_antisymm hx (by linarith)
        rw [this] at hpos
        simp at hpos
    by_cases h2 : x - f > 1/2
    · simp only [if_neg h1, if_pos h2]
      exact hdiv (f + 1) (by omega)
    · simp only [if_neg h1, if_neg h2]
      by_cases h3 : f % 2 = 0
      · simp only [if_pos h3]
        exact hdiv f hf
      · simp only [if_neg h3]
        exact hdiv (f + 1) (by omega)

/-- Rounding to four decimals never falls below an integer-lattice lower
bound. -/
theorem pyRound4_ge_of_ge {q : ℚ} {k : ℤ} (h : (k : ℚ) / 10000 ≤ q) :
    (k : ℚ) / 10000 ≤ pyRound4 q := by
  have hx : (k : ℚ) ≤ q * 10000 := by linarith
  have hf : k ≤ ⌊q * 10000⌋ := Int.le_floor.mpr (by exact_mod_cast hx)
  unfold pyRound4
  have hdiv : ∀ n : ℤ, k ≤ n → (k : ℚ) / 10000 ≤ (n : ℚ) / 10000 := by
    intro n hn
    apply div_le_div_of_nonneg_right _ (by norm_num)
    exact_mod_cast hn
  set x := q * 10000
  set f := ⌊x⌋
  by_cases h1 : x - f < 1/2
  · simp only [if_pos h1]; exact hdiv f hf
  · by_cases h2 : x - f > 1/2
    · simp only [if_neg h1, if_pos h2]; exact hdiv (f + 1) (by omega)
    · simp only [if_neg h1, if_neg h2]
      by_cases h3 : f % 2 = 0
      · simp only [if_pos h3]; exact hdiv f hf
      · simp only [if_neg h3]; exact hdiv (f + 1) (by omega)

/-- Elements surviving dedupKeepFirst are elements of the input. -/
theorem dedupKeepFirst_subset {l seen : List String} {x : String}
    (hx : x ∈ dedupKeepFirst l seen) : x ∈ l := by
  induction l generalizing seen with
  | nil => simp [dedupKeepFirst] at hx
  | cons a l ih =>
    rw [dedupKeepFirst] at hx
    by_cases h : a ∈ seen
    · simp only [if_pos h] at hx
      exact List.mem_cons_of_mem _ (ih hx)
    · simp only [if_neg h] at hx
      rcases List.mem_cons.1 hx with h' | h'
      · exact h' ▸ List.mem_cons_self _ _
      · exact List.mem_cons_of_mem _ (ih h')

/-- Elements of the input outside the seen accumulator survive
dedupKeepFirst. -/
theorem mem_dedupKeepFirst {l seen : List String} {x : String}
    (hx : x ∈ l) (hseen : x ∉ seen) : x ∈ dedupKeepFirst l seen := by
  induction l generalizing seen with
  | nil => cases hx
  | cons a l ih =>
    rw [dedupKeepFirst]
    by_cases h : a ∈ seen
    · simp only [if_pos h]
      rcases List.mem_cons.1 hx with h' | h'
      · exact absurd (h' ▸ h) hseen
      · exact ih h' hseen
    · simp only [if_neg h]
      rcases List.mem_cons.1 hx with h' | h'
      · exact h' ▸ List.mem_cons_self _ _
      · by_cases hax : x = a
        · exact hax ▸ List.mem_cons_self _ _
        · exact List.mem_cons_of_mem _ (ih h' (by simp [hax, hseen]))

/-- dedupKeepFirst is empty only on inputs already covered by seen. -/
theorem dedupKeepFirst_ne_nil {l : List String} (h : l ≠ []) :
    dedupKeepFirst l ≠ [] := by
  match l, h with
  | a :: l, _ =>
    rw [dedupKeepFirst]
    simp [dedupKeepFirst]

/-! ## Claim C8: first-match rule scan of RestrictionRegistry.evaluate -/

/-- The scan answers PASS exactly when no rule matches. -/
theorem scanRules_pass_iff (ing : Ingredient) (rid : String) (rules : List Rule) :
    (scanRules ing rid rules).1 = "PASS" ↔
      ∀ rule ∈ rules, evalRule ing rule = false := by
  induction rules with
  | nil => simp [scanRules]
  | cons rule rest ih =>
    rw [scanRules]
    by_cases h : evalRule ing rule
    · simp only [if_pos h]
      constructor
      · intro hv
        cases hact : rule.action <;>
          simp [RuleAction.value, hact] at hv
      · intro hall
        exact absurd (hall rule (List.mem_cons_self _ _)) (by simp [h])
    · simp only [if_neg h]
      rw [ih]
      constructor
      · intro hall rule' hr'
        rcases List.mem_cons.1 hr' with h' | h'
        · subst h'
          exact eq_false_of_ne_true h
        · exact hall rule' h'
      · intro hall rule' hr'
        exact hall rule' (List.mem_cons_of_mem _ hr')

/-- The scan answers with the first matching rule. -/
theorem scanRules_first_match (ing : Ingredient) (rid : String)
    (rules : List Rule) (i : Nat) (h : i < rules.length)
    (hmatch : evalRule ing (rules.get ⟨i, h⟩) = true)
    (hprev : ∀ j (hj : j < i), evalRule ing (rules.get ⟨j, lt_trans hj h⟩) = false) :
    scanRules ing rid rules =
      ((rules.get ⟨i, h⟩).action.value,
        some (rid ++ ": " ++ (rules.get ⟨i, h⟩).field ++ " " ++
          (rules.get ⟨i, h⟩).operator ++ " " ++ pyStr (rules.get ⟨i, h⟩).value)) := by
  induction rules generalizing i with
  | nil => cases h
  | cons rule rest ih =>
    cases i with
    | zero =>
      simp only [List.get] at hmatch ⊢
      rw [scanRules, if_pos hmatch]
    | succ i =>
      have h0 : evalRule ing rule = false := by
        have := hprev 0 (Nat.succ_pos i)
        simpa using this
      rw [scanRules, if_neg (by simp [h0])]
      simp only [List.get] at hmatch ⊢
      exact ih i (Nat.lt_of_succ_lt_succ h) hmatch
        (fun j hj => by
          have := hprev (j + 1) (Nat.succ_lt_succ hj)
          simpa using this)

/-- C8: for every Ingredient and Restriction, RestrictionRegistry.evaluate
scans the rules in order and answers with the action of the first rule whose
predicate matches the ingredient together with a reason, and answers PASS
exactly when no rule of the restriction matches. -/
theorem C8_restriction_registry_first_match (ing : Ingredient) (r : Restriction) :
    ((RestrictionRegistry.evaluate ing r).1 = "PASS" ↔
      ∀ rule ∈ r.rules, evalRule ing rule = false)
    ∧ (∀ i (h : i < r.rules.length),
        evalRule ing (r.rules.get ⟨i, h⟩) = true →
        (∀ j (hj : j < i), evalRule ing (r.rules.get ⟨j, lt_trans hj h⟩) = false) →
        RestrictionRegistry.evaluate ing r =
          ((r.rules.get ⟨i, h⟩).action.value,
            some (r.id ++ ": " ++ (r.rules.get ⟨i, h⟩).field ++ " " ++
              (r.rules.get ⟨i, h⟩).operator ++ " " ++ pyStr (r.rules.get ⟨i, h⟩).value))) := by
  constructor
  · exact scanRules_pass_iff ing r.id r.rules
  · intro i h hmatch hprev
    exact scanRules_first_match ing r.id r.rules i h hmatch hprev

/-- A fixture ingredient carrying the animal-origin flag. -/
def gelatinFix : Ingredient :=
  { id := "gelatin", canonical_name := "gelatin", animal_origin := true }

/-- A fixture ingredient with no flags set. -/
def waterFix : Ingredient := { id := "water", canonical_name := "water" }

/-- A fixture restriction whose first rule warns on dairy and whose second
rule fails on animal origin. -/
def veganTwoRuleFix : Restriction :=
  { id := "vegan", rules :=
      [⟨"dairy_source", "equals", .bool true, .WARN⟩,
       ⟨"animal_origin", "equals", .bool true, .FAIL⟩] }

/-- Witness for C8: a restriction whose first rule does not match and whose
second does answers with the action of the second rule; with no matching
rule, it answers PASS. -/
theorem C8_restriction_registry_first_match_witness :
    (RestrictionRegistry.evaluate gelatinFix veganTwoRuleFix =
      ("FAIL", some "vegan: animal_origin equals True"))
    ∧ ((RestrictionRegistry.evaluate waterFix veganTwoRuleFix).1 = "PASS") := by
  constructor
  · have := (C8_restriction_registry_first_match gelatinFix veganTwoRuleFix).2 1
      (by decide) (by decide)
      (fun j hj => by
        have hj0 : j = 0 := by omega
        subst hj0
        simp [veganTwoRuleFix, evalRule, getIngredientValue, gelatinFix, pyEq])
    simpa using this
  · exact (C8_restriction_registry_first_match waterFix veganTwoRuleFix).1.mpr
      (by decide)

/-! ## Claim C9: merge-only profile updates -/

/-- Component lemma: update_merge never touches user_id. -/
theorem update_merge_user_id (p : UserProfile) (u : ProfileUpdate) :
    (p.update_merge u).user_id = p.user_id := by
  rcases u with ⟨dp, al, ls, lf, dr⟩
  rcases dp with _ | v <;> rcases al with _ | a <;> rcases ls with _ | l <;>
    rcases lf with _ | f <;> rcases dr with _ | (_ | ⟨x, xs⟩) <;>
    simp [UserProfile.update_merge] <;> (try split) <;> (try split) <;> rfl

/-- Component lemma: the allergens after update_merge. -/
theorem update_merge_allergens (p : UserProfile) (u : ProfileUpdate) :
    (p.update_merge u).allergens = u.allergens.getD p.allergens := by
  rcases u with ⟨dp, al, ls, lf, dr⟩
  rcases dp with _ | v <;> rcases al with _ | a <;> rcases ls with _ | l <;>
    rcases lf with _ | f <;> rcases dr with _ | (_ | ⟨x, xs⟩) <;>
    simp [UserProfile.update_merge] <;> (try split) <;> (try split) <;> rfl

/-- Component lemma: the lifestyle after update_merge; a provided
lifestyle_flags value is applied after a provided lifestyle value. -/
theorem update_merge_lifestyle (p : UserProfile) (u : ProfileUpdate) :
    (p.update_merge u).lifestyle =
      (u.lifestyle_flags.orElse (fun _ => u.lifestyle)).getD p.lifestyle := by
  rcases u with ⟨dp, al, ls, lf, dr⟩
  rcases dp with _ | v <;> rcases al with _ | a <;> rcases ls with _ | l <;>
    rcases lf with _ | f <;> rcases dr with _ | (_ | ⟨x, xs⟩) <;>
    simp [UserProfile.update_merge] <;> (try split) <;> (try split) <;> rfl

/-- Component lemma: the dietary preference after update_merge; the legacy
dietary_restrictions list is consulted only when the preference is still
empty or the No rules default after the primary key was applied. -/
theorem update_merge_dietary (p : UserProfile) (u : ProfileUpdate) :
    (p.update_merge u).dietary_preference =
      (let d1 := match u.dietary_preference with
        | Option.none => p.dietary_preference
        | some v => if v = "" then "No rules" else v
      match u.dietary_restrictions with
      | some (x :: _) => if d1 = "" ∨ d1 = "No rules" then x else d1
      | _ => d1) := by
  rcases u with ⟨dp, al, ls, lf, dr⟩
  rcases dp with _ | v <;> rcases al with _ | a <;> rcases ls with _ | l <;>
    rcases lf with _ | f <;> rcases dr with _ | (_ | ⟨x, xs⟩) <;>
    simp [UserProfile.update_merge] <;> (try split) <;> (try split) <;> simp_all

/-- C9: UserProfile updates are merge-only. A field that is absent from the
update, or supplied as None, keeps its existing value; this includes the
legacy alias keys, since supplying dietary_restrictions or lifestyle_flags
is supplying the corresponding field under its legacy name. Fields supplied
with a non-None value are overwritten, and the user id is never touched. -/
theorem C9_update_merge_only (p : UserProfile) (u : ProfileUpdate) :
    (u.dietary_preference = Option.none → u.dietary_restrictions = Option.none →
      (p.update_merge u).dietary_preference = p.dietary_preference)
    ∧ (u.allergens = Option.none →
      (p.update_merge u).allergens = p.allergens)
    ∧ (u.lifestyle = Option.none → u.lifestyle_flags = Option.none →
      (p.update_merge u).lifestyle = p.lifestyle)
    ∧ (p.update_merge u).user_id = p.user_id
    ∧ (∀ v, u.dietary_preference = some v → v ≠ "" →
        u.dietary_restrictions = Option.none →
        (p.update_merge u).dietary_preference = v)
    ∧ (∀ v, u.allergens = some v → (p.update_merge u).allergens = v)
    ∧ (∀ v, u.lifestyle = some v → u.lifestyle_flags = Option.none →
        (p.update_merge u).lifestyle = v) := by
  refine ⟨?_, ?_, ?_, update_merge_user_id p u, ?_, ?_, ?_⟩
  · intro h1 h2
    rw [update_merge_dietary]
    simp [h1, h2]
  · intro h1
    rw [update_merge_allergens, h1]
    rfl
  · intro h1 h2
    rw [update_merge_lifestyle, h1, h2]
    rfl
  · intro v h1 hv h2
    rw [update_merge_dietary]
    simp [h1, h2, hv]
  · intro v h1
    rw [update_merge_allergens, h1]
    rfl
  · intro v h1 h2
    rw [update_merge_lifestyle, h1, h2]
    rfl

/-- Two profiles agreeing on every field are equal. -/
theorem UserProfile.ext_of_fields {a b : UserProfile}
    (h1 : a.user_id = b.user_id)
    (h2 : a.dietary_preference = b.dietary_preference)
    (h3 : a.allergens = b.allergens) (h4 : a.lifestyle = b.lifestyle) : a = b := by
  cases a
  cases b
  simp_all

/-- Witness for C9: a concrete merge update that supplies only allergens
keeps the dietary preference and lifestyle and overwrites the allergens. -/
theorem C9_update_merge_only_witness :
    (UserProfile.update_merge
        { user_id := "u1", dietary_preference := "Jain",
          allergens := ["milk"], lifestyle := ["no alcohol"] }
        { allergens := some ["peanut"] }) =
      { user_id := "u1", dietary_preference := "Jain",
        allergens := ["peanut"], lifestyle := ["no alcohol"] } := by
  have h := C9_update_merge_only
    { user_id := "u1", dietary_preference := "Jain",
      allergens := ["milk"], lifestyle := ["no alcohol"] }
    { allergens := some ["peanut"] }
  obtain ⟨h1, _, h3, h4, _, h6, _⟩ := h
  have e1 := h1 rfl rfl
  have e3 := h3 rfl rfl
  have e6 := h6 ["peanut"] rfl
  exact UserProfile.ext_of_fields h4 e1 e6 e3

/-! ## Claim C10: empty ingredient list -/

/-- C10: evaluating an empty list of ingredient strings answers UNCERTAIN
with empty uncertain and informational lists and a confidence of zero, for
every registry and restriction registry state and every other argument; the
result reads nothing from either registry beyond the loaded ontology
version, as the closed right-hand side shows. -/
theorem C10_empty_ingredients_uncertain (ireg : RegistryState)
    (rreg : RestrictionRegistryState) (restriction_ids : Option (List String))
    (region_scope : Option String) (trace_keys : List String) (use_api : Bool) :
    ComplianceEngine.evaluate ireg rreg [] restriction_ids region_scope
        trace_keys use_api =
      { status := .UNCERTAIN, triggered_restrictions := [],
        triggered_ingredients := [], uncertain_ingredients := [],
        informational_ingredients := [], confidence_score := 0,
        ontology_version := ireg.version } := by
  rfl

/-! ## Claim C7: the input sanity check of the resolver -/

/-- A normalized key with more than five words, or with both a sentence verb
and a diet word, fails the input sanity check. -/
theorem is_valid_false_of_sentence (s : String)
    (h : (pySplitWs (pyLower s)).length > 5 ∨
      ((pySplitWs (pyLower s)).any (fun w => w ∈ SENTENCE_VERBS) ∧
       (pySplitWs (pyLower s)).any (fun w => w ∈ DIET_WORDS))) :
    is_valid_ingredient_input s = false := by
  unfold is_valid_ingredient_input
  by_cases h0 : s = "" ∨ pyStrip s = ""
  · simp [h0]
  · simp only [if_neg h0]
    rcases h with h | h
    · simp [h]
    · by_cases h5 : (pySplitWs (pyLower s)).length > 5
      · simp [h5]
      · simp [h5, h.1, h.2]

/-- On an ontology miss, resolve_with_source answers none with a static tag. -/
theorem resolve_with_source_miss (st : RegistryState) (raw : String)
    (hmiss : lookupKey st (normalize_ingredient_key raw) = Option.none) :
    resolve_with_source st raw = (Option.none, "static") := by
  unfold resolve_with_source
  simp only []
  rw [hmiss]

/-- C7: an ontology miss whose normalized key has more than five words, or
contains both a sentence verb and a diet word, is rejected by
resolve_with_fallback with a null ingredient and low confidence before any
external-API call and before any unknown-ingredient log write, as the empty
event list shows; a key that passes the check has its unknown logged before
the external-API fetcher runs, as the event order shows. -/
theorem C7_sanity_check_before_api (st : RegistryState) (raw : String)
    (try_api log_unknown : Bool) :
    (lookupKey st (normalize_ingredient_key raw) = Option.none →
      ((pySplitWs (pyLower (normalize_ingredient_key raw))).length > 5 ∨
        ((pySplitWs (pyLower (normalize_ingredient_key raw))).any
            (fun w => w ∈ SENTENCE_VERBS) ∧
         (pySplitWs (pyLower (normalize_ingredient_key raw))).any
            (fun w => w ∈ DIET_WORDS))) →
      resolve_with_fallback st raw try_api log_unknown =
        ((Option.none, "static", "low"), []))
    ∧ (lookupKey st (normalize_ingredient_key raw) = Option.none →
      is_valid_ingredient_input (normalize_ingredient_key raw) = true →
      log_unknown = true → try_api = true →
      ∃ tail, (resolve_with_fallback st raw try_api log_unknown).2 =
        ResolverEvent.logUnknown raw (normalize_ingredient_key raw) ::
          ResolverEvent.apiFetch (normalize_ingredient_key raw) :: tail) := by
  constructor
  · intro hmiss hbad
    unfold resolve_with_fallback
    rw [resolve_with_source_miss st raw hmiss]
    have hv := is_valid_false_of_sentence (normalize_ingredient_key raw) hbad
    simp [hv]
  · intro hmiss hvalid hlog htry
    subst hlog
    subst htry
    unfold resolve_with_fallback
    rw [resolve_with_source_miss st raw hmiss]
    simp only [hvalid]
    simp only [Bool.not_true, if_true, if_false]
    rcases hres : (st.apiResult (normalize_ingredient_key raw)).ingredient with _ | ing
    · exact ⟨[], by simp [hres]⟩
    · by_cases hc : (st.apiResult (normalize_ingredient_key raw)).confidence = "high"
      · refine ⟨[.appendDynamic ing.canonical_name, .addIngredient ing.canonical_name],
          ?_⟩
        simp [hres, hc]
      · by_cases hm : (st.apiResult (normalize_ingredient_key raw)).confidence = "medium"
        · exact ⟨[], by simp [hres, hc, hm]⟩
        · exact ⟨[], by simp [hres, hc, hm]⟩

/-- Witness for C7: the question-like string is rejected with no events, and
an unknown single word is logged before the fetch. -/
theorem C7_sanity_check_before_api_witness :
    (resolve_with_fallback
        { byKey := [], staticKeys := [], version := "0",
          apiResult := fun _ => ⟨Option.none, "low", "none", "no_result"⟩ }
        "can a jain eat this onion dish" true true =
      ((Option.none, "static", "low"), []))
    ∧ ∃ tail, (resolve_with_fallback
        { byKey := [], staticKeys := [], version := "0",
          apiResult := fun _ => ⟨Option.none, "low", "none", "no_result"⟩ }
        "dragonfruit" true true).2 =
        ResolverEvent.logUnknown "dragonfruit" "dragonfruit" ::
          ResolverEvent.apiFetch "dragonfruit" :: tail := by
  constructor
  · exact (C7_sanity_check_before_api
      { byKey := [], staticKeys := [], version := "0",
        apiResult := fun _ => ⟨Option.none, "low", "none", "no_result"⟩ }
      "can a jain eat this onion dish" true true).1 rfl (by decide)
  · have h := (C7_sanity_check_before_api
      { byKey := [], staticKeys := [], version := "0",
        apiResult := fun _ => ⟨Option.none, "low", "none", "no_result"⟩ }
      "dragonfruit" true true).2 rfl (by decide) rfl rfl
    simpa using h

/-! ## Claim C3: the source tag of an external-API failure -/

/-- A fixture registry with an empty ontology whose external fetcher never
produces an ingredient. -/
def emptyRegFix : RegistryState :=
  { byKey := [], staticKeys := [], version := "0",
    apiResult := fun _ => ⟨Option.none, "low", "none", "no_result"⟩ }

/-- Counterexample to C3 as stated: an input that misses the ontology,
passes the sanity check and gets no ingredient from the external fetch is
answered by resolve_with_fallback with the source string api, not
api_failed. -/
theorem C3_counterexample_source_is_api :
    (resolve_with_fallback emptyRegFix "xyzingredient" true true).1 =
      (Option.none, "api", "low")
    ∧ (resolve_with_fallback emptyRegFix "xyzingredient" true true).1.2.1 ≠
      "api_failed" := by
  refine ⟨by decide, ?_⟩
  decide

/-- C3 amended: such an input is answered with a null ingredient, source
api and confidence low; the compliance engine then records the resolution
level api_failed for that ingredient when it is not a trace item. -/
theorem C3_api_failure_amended (st : RegistryState) (raw : String)
    (log_unknown : Bool)
    (hmiss : lookupKey st (normalize_ingredient_key raw) = Option.none)
    (hvalid : is_valid_ingredient_input (normalize_ingredient_key raw) = true)
    (hapi : (st.apiResult (normalize_ingredient_key raw)).ingredient = Option.none) :
    (resolve_with_fallback st raw true log_unknown).1 =
      (Option.none, "api", "low")
    ∧ (∀ trace_set : List String, pyKey raw ≠ "" → pyKey raw ∉ trace_set →
        stepResolve st trace_set true raw = ⟨[], [raw], [], ["api_failed"]⟩) := by
  have hmain : ∀ lg : Bool, (resolve_with_fallback st raw true lg).1 =
      (Option.none, "api", "low") := by
    intro lg
    unfold resolve_with_fallback
    rw [resolve_with_source_miss st raw hmiss]
    simp [hvalid, hapi]
  refine ⟨hmain log_unknown, ?_⟩
  intro trace_set hkey htrace
  unfold stepResolve
  rw [if_neg hkey]
  have htr : (pyKey raw ∈ trace_set) = False := by simp [htrace]
  simp only [htr, if_true, decide_False]
  have := hmain true
  rcases hrw : (resolve_with_fallback st raw true true).1 with ⟨ing, src, lvl⟩
  rw [hrw] at this
  obtain ⟨h1, h2, h3⟩ := Prod.mk.injEq .. ▸ this
  simp_all

/-- Witness for C3 amended: the concrete fixture input lands in the
uncertain list with the api_failed level. -/
theorem C3_api_failure_amended_witness :
    (resolve_with_fallback emptyRegFix "xyzingredient" true true).1 =
      (Option.none, "api", "low")
    ∧ stepResolve emptyRegFix [] true "xyzingredient" =
      ⟨[], ["xyzingredient"], [], ["api_failed"]⟩ := by
  have h := C3_api_failure_amended emptyRegFix "xyzingredient" true rfl
    (by decide) rfl
  exact ⟨h.1, h.2 [] (by decide) (by simp)⟩

/-! ## Claim C6: the external-API cache -/

/-- A fixture fetch environment with no configured connectors, whose
cache-key derivation is the identity. -/
def fetchEnvFix : FetchEnv :=
  { usdaKey := Option.none, offEnabled := false,
    usda := fun _ => ⟨Option.none, "low", "usda_fdc", ""⟩,
    off := fun _ => ⟨Option.none, "low", "open_food_facts", ""⟩,
    cacheKey := fun s => s }

/-- The no-result value fetch_ingredient_from_apis stores and answers when
every connector fails. -/
def noResultFix : EnrichmentResult := ⟨Option.none, "low", "none", "no_result"⟩

/-- Counterexample to C6 as stated: an entry cached at time zero is returned
as a hit by a fetch two hours later, although the claimed one-hour
time-to-live has long expired; the timestamp is stored but never compared. -/
theorem C6_counterexample_stale_hit :
    (fetch_ingredient_from_apis fetchEnvFix [] 0 "zzzkey" true =
      (noResultFix, [⟨"zzzkey", noResultFix, 0⟩]))
    ∧ (fetch_ingredient_from_apis fetchEnvFix [⟨"zzzkey", noResultFix, 0⟩]
        7200 "zzzkey" true = (noResultFix, [⟨"zzzkey", noResultFix, 0⟩]))
    ∧ ((7200 : ℚ) - 0 > 3600) := by
  refine ⟨by decide, by decide, by norm_num⟩

/-- C6 amended: the cache keeps at most 500 entries and each entry carries a
timestamp, but no time-to-live is enforced: a cached entry is returned as a
hit whatever its age, and when the cache is full a new result is simply not
inserted, with no eviction of expired entries. -/
theorem C6_cache_amended (env : FetchEnv) (cache : List CacheEntry) (now : ℚ)
    (nkey : String) :
    (∀ use_cache, cache.length ≤ CACHE_MAX_ENTRIES →
      (fetch_ingredient_from_apis env cache now nkey use_cache).2.length ≤
        CACHE_MAX_ENTRIES)
    ∧ (∀ e, cacheLookup cache (env.cacheKey nkey) = some e →
        fetch_ingredient_from_apis env cache now nkey true = (e.result, cache))
    ∧ (cacheLookup cache (env.cacheKey nkey) = Option.none →
        ¬ cache.length < CACHE_MAX_ENTRIES →
        (fetch_ingredient_from_apis env cache now nkey true).2 = cache) := by
  refine ⟨?_, ?_, ?_⟩
  · intro use_cache hlen
    rcases use_cache with _ | _
    · simp [fetch_ingredient_from_apis]
      exact hlen
    · rcases hl : cacheLookup cache (env.cacheKey nkey) with _ | e
      · by_cases hfull : cache.length < CACHE_MAX_ENTRIES
        · simp [fetch_ingredient_from_apis, hl, hfull]
          omega
        · simp [fetch_ingredient_from_apis, hl, hfull]
          exact hlen
      · simp [fetch_ingredient_from_apis, hl]
        exact hlen
  · intro e hl
    simp [fetch_ingredient_from_apis, hl]
  · intro hl hfull
    simp [fetch_ingredient_from_apis, hl, hfull]

/-- Witness for C6 amended: on the concrete empty-connector environment, a
full-size cache stays unchanged on a miss, a present entry is answered from
the cache, and the size bound is preserved. -/
theorem C6_cache_amended_witness :
    ((fetch_ingredient_from_apis fetchEnvFix [] 0 "zzzkey" true).2.length ≤
      CACHE_MAX_ENTRIES)
    ∧ (fetch_ingredient_from_apis fetchEnvFix [⟨"zzzkey", noResultFix, 0⟩]
        7200 "zzzkey" true = (noResultFix, [⟨"zzzkey", noResultFix, 0⟩])) := by
  constructor
  · exact (C6_cache_amended fetchEnvFix [] 0 "zzzkey").1 true (by decide)
  · exact (C6_cache_amended fetchEnvFix [⟨"zzzkey", noResultFix, 0⟩] 7200
      "zzzkey").2.1 ⟨"zzzkey", noResultFix, 0⟩ (by decide)

/-! ## Engine lemmas shared by claims C1, C2 and C4 -/

/-- The value returned by resolve_with_fallback does not depend on the
log_unknown flag; only the event list does. -/
theorem resolve_with_fallback_fst_log_indep (st : RegistryState) (raw : String)
    (try_api : Bool) (l l' : Bool) :
    (resolve_with_fallback st raw try_api l).1 =
      (resolve_with_fallback st raw try_api l').1 := by
  unfold resolve_with_fallback
  rcases resolve_with_source st raw with ⟨_ | ing, source⟩
  · by_cases hv : is_valid_ingredient_input (normalize_ingredient_key raw)
    · simp only [hv]
      by_cases ht : try_api
      · rcases (st.apiResult (normalize_ingredient_key raw)).ingredient with _ | ing
        · simp [ht]
        · by_cases hc : (st.apiResult (normalize_ingredient_key raw)).confidence = "high" <;>
            by_cases hm : (st.apiResult (normalize_ingredient_key raw)).confidence = "medium" <;>
            simp [ht, hc, hm]
      · simp [ht]
    · simp [hv]
  · rfl

/-- The step of the resolve loop for an input whose key is nonempty, is not
a trace key, and does not resolve through the fallback, records the raw as
uncertain with either the api_failed level or the low level. -/
theorem stepResolve_unresolved_nontrace (ireg : RegistryState)
    (trace_set : List String) (useApi : Bool) (raw : String)
    (hkey : pyKey raw ≠ "") (htrace : pyKey raw ∉ trace_set)
    (hres : resolvesTo ireg useApi raw = Option.none) :
    (stepResolve ireg trace_set useApi raw).uncertain = [raw] := by
  unfold stepResolve
  rw [if_neg hkey]
  cases useApi with
  | false =>
    unfold resolvesTo at hres
    simp only [Bool.false_eq_true, if_false, if_neg] at hres ⊢
    simp [hres, htrace]
  | true =>
    unfold resolvesTo at hres
    simp only [if_pos rfl, if_true] at hres
    rcases hrw : (resolve_with_fallback ireg raw true true).1 with ⟨oing, src, lvl⟩
    rw [hrw] at hres
    simp only at hres
    subst hres
    have heq := resolve_with_fallback_fst_log_indep ireg raw true
      (!decide (pyKey raw ∈ trace_set)) true
    rw [hrw] at heq
    simp only [if_true, heq]
    by_cases hsrc : src = "api" <;> simp [hsrc, htrace]

/-- The step of the resolve loop for an input whose key is nonempty and
resolves through the engine records exactly that ingredient together with
its trace flag. -/
theorem stepResolve_resolved_some (ireg : RegistryState)
    (trace_set : List String) (useApi : Bool) (raw : String) (ing : Ingredient)
    (hkey : pyKey raw ≠ "") (hres : resolvesTo ireg useApi raw = some ing) :
    (stepResolve ireg trace_set useApi raw).resolved =
      [(ing, decide (pyKey raw ∈ trace_set))] := by
  unfold stepResolve
  rw [if_neg hkey]
  cases useApi with
  | false =>
    unfold resolvesTo at hres
    simp only [Bool.false_eq_true, if_false, if_neg] at hres ⊢
    simp [hres]
  | true =>
    unfold resolvesTo at hres
    simp only [if_pos rfl, if_true] at hres
    rcases hrw : (resolve_with_fallback ireg raw true true).1 with ⟨oing, src, lvl⟩
    rw [hrw] at hres
    simp only at hres
    subst hres
    have heq := resolve_with_fallback_fst_log_indep ireg raw true
      (!decide (pyKey raw ∈ trace_set)) true
    rw [hrw] at heq
    simp only [if_true, heq]

/-- The step of the resolve loop for an unresolved trace atom with a
nonempty key: informational only, counted at the high level. -/
theorem stepResolve_trace_unresolved (ireg : RegistryState)
    (trace_set : List String) (useApi : Bool) (raw : String)
    (hkey : pyKey raw ≠ "") (htrace : pyKey raw ∈ trace_set)
    (hres : resolvesTo ireg useApi raw = Option.none) :
    stepResolve ireg trace_set useApi raw = ⟨[], [], [raw], ["high"]⟩ := by
  unfold stepResolve
  rw [if_neg hkey]
  cases useApi with
  | false =>
    unfold resolvesTo at hres
    simp only [Bool.false_eq_true, if_false, if_neg] at hres ⊢
    simp [hres, htrace]
  | true =>
    unfold resolvesTo at hres
    simp only [if_pos rfl, if_true] at hres
    rcases hrw : (resolve_with_fallback ireg raw true true).1 with ⟨oing, src, lvl⟩
    rw [hrw] at hres
    simp only at hres
    subst hres
    have heq := resolve_with_fallback_fst_log_indep ireg raw true
      (!decide (pyKey raw ∈ trace_set)) true
    rw [hrw] at heq
    simp only [if_true, heq]
    simp [htrace]

/-- Members of the uncertain list of one step are exactly the raw input,
and only when its key is nonempty and non-trace and it does not resolve. -/
theorem stepResolve_uncertain_char (ireg : RegistryState)
    (trace_set : List String) (useApi : Bool) (raw x : String)
    (hx : x ∈ (stepResolve ireg trace_set useApi raw).uncertain) :
    x = raw ∧ pyKey raw ≠ "" ∧ pyKey raw ∉ trace_set ∧
      resolvesTo ireg useApi raw = Option.none := by
  unfold stepResolve at hx
  by_cases hkey : pyKey raw = ""
  · rw [if_pos hkey] at hx
    simp at hx
  · rw [if_neg hkey] at hx
    by_cases htr : pyKey raw ∈ trace_set
    · exfalso
      cases useApi with
      | false =>
        simp only [Bool.false_eq_true, if_false, if_neg] at hx
        rcases hr : IngredientRegistry.resolve ireg raw with _ | ing <;>
          simp [hr, htr] at hx
      | true =>
        simp only [if_true] at hx
        rw [show (!decide (pyKey raw ∈ trace_set)) = false by simp [htr]] at hx
        rcases hrw : (resolve_with_fallback ireg raw true false).1
            with ⟨_ | ing, src, lvl⟩ <;>
          simp [hrw, htr] at hx
    · cases useApi with
      | false =>
        simp only [Bool.false_eq_true, if_false, if_neg] at hx
        rcases hr : IngredientRegistry.resolve ireg raw with _ | ing
        · simp only [hr, if_neg htr] at hx
          simp at hx
          refine ⟨hx, hkey, htr, ?_⟩
          unfold resolvesTo
          simpa using hr
        · simp [hr, htr] at hx
      | true =>
        simp only [if_true] at hx
        rcases hrw : (resolve_with_fallback ireg raw true
            (!decide (pyKey raw ∈ trace_set))).1 with ⟨_ | ing, src, lvl⟩
        · have heq := resolve_with_fallback_fst_log_indep ireg raw true true
            (!decide (pyKey raw ∈ trace_set))
          rw [hrw] at heq
          have hres : resolvesTo ireg true raw = Option.none := by
            unfold resolvesTo
            simp [heq]
          rw [hrw] at hx
          by_cases hsrc : src = "api" <;> simp [hsrc, htr] at hx <;>
            exact ⟨hx, hkey, htr, hres⟩
        · rw [hrw] at hx
          simp [htr] at hx

/-- Every step records at most one resolved ingredient. -/
theorem stepResolve_resolved_length (ireg : RegistryState)
    (trace_set : List String) (useApi : Bool) (raw : String) :
    (stepResolve ireg trace_set useApi raw).resolved.length ≤ 1 := by
  unfold stepResolve
  by_cases hkey : pyKey raw = ""
  · simp [hkey]
  · rw [if_neg hkey]
    cases useApi with
    | false =>
      simp only [Bool.false_eq_true, if_false, if_neg]
      rcases IngredientRegistry.resolve ireg raw with _ | ing <;>
        by_cases htr : pyKey raw ∈ trace_set <;> simp [htr]
    | true =>
      simp only [if_true]
      rcases (resolve_with_fallback ireg raw true
          (!decide (pyKey raw ∈ trace_set))).1 with ⟨_ | ing, src, lvl⟩ <;>
        by_cases htr : pyKey raw ∈ trace_set <;>
        by_cases hsrc : src = "api" <;> simp [htr, hsrc]

/-- Every step with a nonempty key records exactly one resolution level. -/
theorem stepResolve_levels_length (ireg : RegistryState)
    (trace_set : List String) (useApi : Bool) (raw : String)
    (hkey : pyKey raw ≠ "") :
    (stepResolve ireg trace_set useApi raw).levels.length = 1 := by
  unfold stepResolve
  rw [if_neg hkey]
  cases useApi with
  | false =>
    simp only [Bool.false_eq_true, if_false, if_neg]
    rcases IngredientRegistry.resolve ireg raw with _ | ing <;>
      by_cases htr : pyKey raw ∈ trace_set <;> simp [htr]
  | true =>
    simp only [if_true]
    rcases (resolve_with_fallback ireg raw true
        (!decide (pyKey raw ∈ trace_set))).1 with ⟨_ | ing, src, lvl⟩ <;>
      by_cases htr : pyKey raw ∈ trace_set <;>
      by_cases hsrc : src = "api" <;> simp [htr, hsrc]

/-- A step contribution to the uncertain list survives into the loop. -/
theorem resolveLoop_mem_uncertain (ireg : RegistryState)
    (trace_set : List String) (useApi : Bool) {inputs : List String}
    {s x : String} (hs : s ∈ inputs)
    (hx : x ∈ (stepResolve ireg trace_set useApi s).uncertain) :
    x ∈ (resolveLoop ireg trace_set useApi inputs).uncertain := by
  induction inputs with
  | nil => cases hs
  | cons a rest ih =>
    rw [resolveLoop]
    unfold ResolveState.append
    simp only [List.mem_append]
    rcases List.mem_cons.1 hs with h | h
    · exact Or.inl (h ▸ hx)
    · exact Or.inr (ih h)

/-- A step contribution to the informational list survives into the loop. -/
theorem resolveLoop_mem_informational (ireg : RegistryState)
    (trace_set : List String) (useApi : Bool) {inputs : List String}
    {s x : String} (hs : s ∈ inputs)
    (hx : x ∈ (stepResolve ireg trace_set useApi s).informational) :
    x ∈ (resolveLoop ireg trace_set useApi inputs).informational := by
  induction inputs with
  | nil => cases hs
  | cons a rest ih =>
    rw [resolveLoop]
    unfold ResolveState.append
    simp only [List.mem_append]
    rcases List.mem_cons.1 hs with h | h
    · exact Or.inl (h ▸ hx)
    · exact Or.inr (ih h)

/-- A step contribution to the resolved list survives into the loop. -/
theorem resolveLoop_mem_resolved (ireg : RegistryState)
    (trace_set : List String) (useApi : Bool) {inputs : List String}
    {s : String} {p : Ingredient × Bool} (hs : s ∈ inputs)
    (hp : p ∈ (stepResolve ireg trace_set useApi s).resolved) :
    p ∈ (resolveLoop ireg trace_set useApi inputs).resolved := by
  induction inputs with
  | nil => cases hs
  | cons a rest ih =>
    rw [resolveLoop]
    unfold ResolveState.append
    simp only [List.mem_append]
    rcases List.mem_cons.1 hs with h | h
    · exact Or.inl (h ▸ hp)
    · exact Or.inr (ih h)

/-- Every member of the loop uncertain list came from the step of some
input. -/
theorem resolveLoop_uncertain_src (ireg : RegistryState)
    (trace_set : List String) (useApi : Bool) {inputs : List String}
    {x : String} (hx : x ∈ (resolveLoop ireg trace_set useApi inputs).uncertain) :
    ∃ s ∈ inputs, x ∈ (stepResolve ireg trace_set useApi s).uncertain := by
  induction inputs with
  | nil => simp [resolveLoop] at hx
  | cons a rest ih =>
    rw [resolveLoop] at hx
    unfold ResolveState.append at hx
    rcases List.mem_append.1 hx with h | h
    · exact ⟨a, List.mem_cons_self _ _, h⟩
    · obtain ⟨s, hs, hstep⟩ := ih h
      exact ⟨s, List.mem_cons_of_mem _ hs, hstep⟩

/-- The loop resolves at most one ingredient per input. -/
theorem resolveLoop_resolved_length (ireg : RegistryState)
    (trace_set : List String) (useApi : Bool) (inputs : List String) :
    (resolveLoop ireg trace_set useApi inputs).resolved.length ≤ inputs.length := by
  induction inputs with
  | nil => simp [resolveLoop]
  | cons a rest ih =>
    rw [resolveLoop]
    unfold ResolveState.append
    simp only [List.length_append, List.length_cons]
    have := stepResolve_resolved_length ireg trace_set useApi a
    omega

/-- With every key nonempty, the loop records exactly one resolution level
per input. -/
theorem resolveLoop_levels_length (ireg : RegistryState)
    (trace_set : List String) (useApi : Bool) (inputs : List String)
    (h : ∀ s ∈ inputs, pyKey s ≠ "") :
    (resolveLoop ireg trace_set useApi inputs).levels.length = inputs.length := by
  induction inputs with
  | nil => simp [resolveLoop]
  | cons a rest ih =>
    rw [resolveLoop]
    unfold ResolveState.append
    simp only [List.length_append, List.length_cons]
    rw [stepResolve_levels_length ireg trace_set useApi a
      (h a (List.mem_cons_self _ _))]
    rw [ih (fun s hs => h s (List.mem_cons_of_mem _ hs))]
    omega

/-- A selected restriction failing on a resolved ingredient appears in the
raw triggered-restriction list, and the ingredient name in the raw
triggered-ingredient list. -/
theorem mem_rawTriggered (rreg : RestrictionRegistryState)
    {rest_ids : List String} {resolved : List (Ingredient × Bool)}
    {rid : String} {r : Restriction} {p : Ingredient × Bool}
    (hrid : rid ∈ rest_ids) (hget : rreg.get rid = some r)
    (hp : p ∈ resolved) (hfail : (RestrictionRegistry.evaluate p.1 r).1 = "FAIL") :
    rid ∈ rawTriggeredRestrictions rreg rest_ids resolved ∧
      p.1.canonical_name ∈ rawTriggeredIngredients rreg rest_ids resolved := by
  constructor
  · unfold rawTriggeredRestrictions
    rw [List.mem_flatMap]
    refine ⟨rid, hrid, ?_⟩
    rw [hget]
    rw [List.mem_filterMap]
    exact ⟨p, hp, by rw [if_pos hfail]⟩
  · unfold rawTriggeredIngredients
    rw [List.mem_flatMap]
    refine ⟨rid, hrid, ?_⟩
    rw [hget]
    rw [List.mem_filterMap]
    exact ⟨p, hp, by rw [if_pos hfail]⟩

/-- With no selected restriction failing on any resolved ingredient, the
raw triggered-restriction list is empty. -/
theorem rawTriggeredRestrictions_nil (rreg : RestrictionRegistryState)
    {rest_ids : List String} {resolved : List (Ingredient × Bool)}
    (h : ∀ rid ∈ rest_ids, ∀ r, rreg.get rid = some r →
      ∀ p ∈ resolved, (RestrictionRegistry.evaluate p.1 r).1 ≠ "FAIL") :
    rawTriggeredRestrictions rreg rest_ids resolved = [] := by
  unfold rawTriggeredRestrictions
  rw [List.flatMap_eq_nil_iff]
  intro rid hrid
  rcases hget : rreg.get rid with _ | r
  · rfl
  · rw [List.filterMap_eq_nil_iff]
    intro p hp
    rw [if_neg (h rid hrid r hget p hp)]

/-- Every raw triggered restriction has a failing resolved witness pair. -/
theorem rawTriggeredRestrictions_src (rreg : RestrictionRegistryState)
    {rest_ids : List String} {resolved : List (Ingredient × Bool)}
    {rid : String} (h : rid ∈ rawTriggeredRestrictions rreg rest_ids resolved) :
    ∃ r, rreg.get rid = some r ∧ rid ∈ rest_ids ∧
      ∃ p ∈ resolved, (RestrictionRegistry.evaluate p.1 r).1 = "FAIL" := by
  unfold rawTriggeredRestrictions at h
  rw [List.mem_flatMap] at h
  obtain ⟨rid', hrid', hmem⟩ := h
  rcases hget : rreg.get rid' with _ | r
  · rw [hget] at hmem
    simp at hmem
  · rw [hget] at hmem
    rw [List.mem_filterMap] at hmem
    obtain ⟨p, hp, hif⟩ := hmem
    by_cases hfail : (RestrictionRegistry.evaluate p.1 r).1 = "FAIL"
    · rw [if_pos hfail] at hif
      cases hif
      exact ⟨r, hget, hrid', p, hp, hfail⟩
    · rw [if_neg hfail] at hif
      cases hif

/-- When every failing pair of the scan is a trace pair, every raw
triggered restriction is also minor-triggered. -/
theorem rawTriggered_sub_minor (rreg : RestrictionRegistryState)
    {rest_ids : List String} {resolved : List (Ingredient × Bool)}
    (hall : ∀ rid ∈ rest_ids, ∀ r, rreg.get rid = some r →
      ∀ p ∈ resolved, (RestrictionRegistry.evaluate p.1 r).1 = "FAIL" → p.2 = true)
    {rid : String} (h : rid ∈ rawTriggeredRestrictions rreg rest_ids resolved) :
    rid ∈ minorTriggeredRestrictions rreg rest_ids resolved := by
  obtain ⟨r, hget, hrid, p, hp, hfail⟩ := rawTriggeredRestrictions_src rreg h
  unfold minorTriggeredRestrictions
  rw [List.mem_flatMap]
  refine ⟨rid, hrid, ?_⟩
  rw [hget, List.mem_filterMap]
  refine ⟨p, hp, ?_⟩
  rw [if_pos ⟨hfail, hall rid hrid r hget p hp hfail⟩]

/-- The informational list of a nonempty evaluation is the loop
informational list. -/
theorem evaluate_informational (ireg : RegistryState)
    (rreg : RestrictionRegistryState) (inputs : List String)
    (ids : Option (List String)) (region : Option String)
    (trace : List String) (useApi : Bool) (h : inputs ≠ []) :
    (ComplianceEngine.evaluate ireg rreg inputs ids region trace useApi).informational_ingredients =
      (resolveLoop ireg trace useApi inputs).informational := by
  unfold ComplianceEngine.evaluate
  rw [if_neg h]

/-- The uncertain list of a nonempty evaluation is the loop uncertain
list. -/
theorem evaluate_uncertain (ireg : RegistryState)
    (rreg : RestrictionRegistryState) (inputs : List String)
    (ids : Option (List String)) (region : Option String)
    (trace : List String) (useApi : Bool) (h : inputs ≠ []) :
    (ComplianceEngine.evaluate ireg rreg inputs ids region trace useApi).uncertain_ingredients =
      (resolveLoop ireg trace useApi inputs).uncertain := by
  unfold ComplianceEngine.evaluate
  rw [if_neg h]

/-- The status of a nonempty evaluation, written over the scan lists. -/
theorem evaluate_status (ireg : RegistryState)
    (rreg : RestrictionRegistryState) (inputs : List String)
    (ids : Option (List String)) (region : Option String)
    (trace : List String) (useApi : Bool) (h : inputs ≠ []) :
    (ComplianceEngine.evaluate ireg rreg inputs ids region trace useApi).status =
      (if dedupKeepFirst (rawTriggeredRestrictions rreg (selectedIds rreg ids region)
            (resolveLoop ireg trace useApi inputs).resolved) ≠ [] then
        VerdictStatus.NOT_SAFE
      else if (resolveLoop ireg trace useApi inputs).uncertain ≠ [] then
        VerdictStatus.UNCERTAIN
      else VerdictStatus.SAFE) := by
  unfold ComplianceEngine.evaluate
  rw [if_neg h]

/-- The triggered ingredient names of a nonempty evaluation. -/
theorem evaluate_triggered_ingredients (ireg : RegistryState)
    (rreg : RestrictionRegistryState) (inputs : List String)
    (ids : Option (List String)) (region : Option String)
    (trace : List String) (useApi : Bool) (h : inputs ≠ []) :
    (ComplianceEngine.evaluate ireg rreg inputs ids region trace useApi).triggered_ingredients =
      dedupKeepFirst (rawTriggeredIngredients rreg (selectedIds rreg ids region)
        (resolveLoop ireg trace useApi inputs).resolved) := by
  unfold ComplianceEngine.evaluate
  rw [if_neg h]

/-! ## Claim C4: unresolved trace atoms are informational -/

/-- C4 amended: an input atom with a nonempty lowercased stripped key that
does not resolve but whose key is in trace_keys is placed in
informational_ingredients, is not placed in uncertain_ingredients, and its
loop step contributes exactly the resolution level high. -/
theorem C4_trace_informational_amended (ireg : RegistryState)
    (rreg : RestrictionRegistryState) (inputs : List String)
    (ids : Option (List String)) (region : Option String)
    (trace : List String) (useApi : Bool) (s : String)
    (hs : s ∈ inputs) (hkey : pyKey s ≠ "") (htr : pyKey s ∈ trace)
    (hres : resolvesTo ireg useApi s = Option.none) :
    s ∈ (ComplianceEngine.evaluate ireg rreg inputs ids region trace
        useApi).informational_ingredients
    ∧ s ∉ (ComplianceEngine.evaluate ireg rreg inputs ids region trace
        useApi).uncertain_ingredients
    ∧ stepResolve ireg trace useApi s = ⟨[], [], [s], ["high"]⟩ := by
  have hne : inputs ≠ [] := by
    intro hnil
    rw [hnil] at hs
    cases hs
  have hstep := stepResolve_trace_unresolved ireg trace useApi s hkey htr hres
  refine ⟨?_, ?_, hstep⟩
  · rw [evaluate_informational ireg rreg inputs ids region trace useApi hne]
    exact resolveLoop_mem_informational ireg trace useApi hs
      (by rw [hstep]; exact List.mem_singleton_self _)
  · rw [evaluate_uncertain ireg rreg inputs ids region trace useApi hne]
    intro hmem
    obtain ⟨t, ht, hstept⟩ := resolveLoop_uncertain_src ireg trace useApi hmem
    obtain ⟨hst, _, hnt, _⟩ := stepResolve_uncertain_char ireg trace useApi t s hstept
    rw [← hst] at hnt
    exact hnt htr

/-- Witness for C4 amended: a concrete unresolved trace atom is
informational only. -/
theorem C4_trace_informational_amended_witness :
    ("xyz compound" ∈ (ComplianceEngine.evaluate emptyRegFix ⟨[]⟩
        ["water", "xyz compound"] Option.none Option.none ["xyz compound"]
        true).informational_ingredients)
    ∧ ("xyz compound" ∉ (ComplianceEngine.evaluate emptyRegFix ⟨[]⟩
        ["water", "xyz compound"] Option.none Option.none ["xyz compound"]
        true).uncertain_ingredients)
    ∧ stepResolve emptyRegFix ["xyz compound"] true "xyz compound" =
      ⟨[], [], ["xyz compound"], ["high"]⟩ := by
  exact C4_trace_informational_amended emptyRegFix ⟨[]⟩
    ["water", "xyz compound"] Option.none Option.none ["xyz compound"] true
    "xyz compound" (by simp) (by decide) (by decide) (by decide)

/-- Counterexample to C4 as stated: the whitespace-only atom has the empty
string as its lowercased stripped key; with the empty string supplied in
trace_keys, the atom does not resolve and its key is in trace_keys, yet the
engine skips it, so it is not placed in informational_ingredients and no
resolution level is recorded for it. -/
theorem C4_counterexample_empty_key :
    pyKey " " = "" ∧ ("" ∈ ([""] : List String))
    ∧ resolvesTo emptyRegFix true " " = Option.none
    ∧ (ComplianceEngine.evaluate emptyRegFix ⟨[]⟩ [" "] Option.none
        Option.none [""] true).informational_ingredients = []
    ∧ engineLevels emptyRegFix [""] true [" "] = [] := by
  refine ⟨by decide, by decide, by decide, by decide, by decide⟩

/-! ## Claim C1: verdict status derivation -/

/-- A fixture dairy ingredient. -/
def milkFix : Ingredient :=
  { id := "milk", canonical_name := "milk", animal_origin := true,
    dairy_source := true }

/-- A fixture sugar ingredient. -/
def sugarFix : Ingredient := { id := "sugar", canonical_name := "sugar" }

/-- A fixture registry resolving water, sugar and milk statically, whose
external fetcher always fails. -/
def regFix : RegistryState :=
  { byKey := [("water", waterFix), ("sugar", sugarFix), ("milk", milkFix)],
    staticKeys := ["water", "sugar", "milk"], version := "1",
    apiResult := fun _ => noResultFix }

/-- C1 amended: in a ComplianceEngine.evaluate call, if some input string
with a nonempty key resolves to an ingredient on which the rule scan of
some selected restriction answers FAIL, the status is NOT_SAFE and the
canonical name of that ingredient appears in triggered_ingredients; if no
selected restriction answers FAIL on any resolved ingredient and some
nonempty-key non-trace input does not resolve, the status is UNCERTAIN;
and if the input list is nonempty, every input resolves and no selected
restriction answers FAIL, the status is SAFE. -/
theorem C1_engine_status_amended (ireg : RegistryState)
    (rreg : RestrictionRegistryState) (inputs : List String)
    (ids : Option (List String)) (region : Option String)
    (trace : List String) (useApi : Bool) :
    (∀ s ing rid r, s ∈ inputs → pyKey s ≠ "" →
      resolvesTo ireg useApi s = some ing →
      rid ∈ selectedIds rreg ids region → rreg.get rid = some r →
      (RestrictionRegistry.evaluate ing r).1 = "FAIL" →
      (ComplianceEngine.evaluate ireg rreg inputs ids region trace useApi).status =
        VerdictStatus.NOT_SAFE ∧
      ing.canonical_name ∈ (ComplianceEngine.evaluate ireg rreg inputs ids
        region trace useApi).triggered_ingredients)
    ∧ ((∀ rid ∈ selectedIds rreg ids region, ∀ r, rreg.get rid = some r →
        ∀ p ∈ (resolveLoop ireg trace useApi inputs).resolved,
          (RestrictionRegistry.evaluate p.1 r).1 ≠ "FAIL") →
      (∃ s ∈ inputs, pyKey s ≠ "" ∧ pyKey s ∉ trace ∧
        resolvesTo ireg useApi s = Option.none) →
      (ComplianceEngine.evaluate ireg rreg inputs ids region trace useApi).status =
        VerdictStatus.UNCERTAIN)
    ∧ (inputs ≠ [] →
      (∀ rid ∈ selectedIds rreg ids region, ∀ r, rreg.get rid = some r →
        ∀ p ∈ (resolveLoop ireg trace useApi inputs).resolved,
          (RestrictionRegistry.evaluate p.1 r).1 ≠ "FAIL") →
      (∀ s ∈ inputs, (resolvesTo ireg useApi s).isSome) →
      (ComplianceEngine.evaluate ireg rreg inputs ids region trace useApi).status =
        VerdictStatus.SAFE) := by
  refine ⟨?_, ?_, ?_⟩
  · intro s ing rid r hs hkey hres hrid hget hfail
    have hne : inputs ≠ [] := by
      intro hnil
      rw [hnil] at hs
      cases hs
    have hstep := stepResolve_resolved_some ireg trace useApi s ing hkey hres
    have hpair : (ing, decide (pyKey s ∈ trace)) ∈
        (resolveLoop ireg trace useApi inputs).resolved :=
      resolveLoop_mem_resolved ireg trace useApi hs
        (by rw [hstep]; exact List.mem_singleton_self _)
    have htrig := mem_rawTriggered rreg hrid hget hpair hfail
    constructor
    · rw [evaluate_status ireg rreg inputs ids region trace useApi hne]
      rw [if_pos (dedupKeepFirst_ne_nil (List.ne_nil_of_mem htrig.1))]
    · rw [evaluate_triggered_ingredients ireg rreg inputs ids region trace
        useApi hne]
      exact mem_dedupKeepFirst htrig.2 (by simp)
  · intro hnofail hwit
    obtain ⟨s, hs, hkey, htr, hres⟩ := hwit
    have hne : inputs ≠ [] := by
      intro hnil
      rw [hnil] at hs
      cases hs
    rw [evaluate_status ireg rreg inputs ids region trace useApi hne]
    rw [rawTriggeredRestrictions_nil rreg hnofail]
    have huncmem : s ∈ (resolveLoop ireg trace useApi inputs).uncertain :=
      resolveLoop_mem_uncertain ireg trace useApi hs
        (by rw [stepResolve_unresolved_nontrace ireg trace useApi s hkey htr hres]
            exact List.mem_singleton_self _)
    rw [if_neg (by simp [dedupKeepFirst])]
    rw [if_pos (List.ne_nil_of_mem huncmem)]
  · intro hne hnofail hall
    rw [evaluate_status ireg rreg inputs ids region trace useApi hne]
    rw [rawTriggeredRestrictions_nil rreg hnofail]
    rw [if_neg (by simp [dedupKeepFirst])]
    have hunc : (resolveLoop ireg trace useApi inputs).uncertain = [] := by
      rcases hu : (resolveLoop ireg trace useApi inputs).uncertain with _ | ⟨t, ts⟩
      · rfl
      · exfalso
        have htmem : t ∈ (resolveLoop ireg trace useApi inputs).uncertain := by
          rw [hu]
          exact List.mem_cons_self _ _
        obtain ⟨s, hsin, hstep⟩ := resolveLoop_uncertain_src ireg trace useApi htmem
        obtain ⟨_, _, _, hnone⟩ := stepResolve_uncertain_char ireg trace useApi s t hstep
        have := hall s hsin
        rw [hnone] at this
        cases this
    rw [if_neg (by simp [hunc])]

/-- Counterexample to C1 as stated: milk resolves and matches the FAIL rule
of the selected restriction, but a WARN rule earlier in the same restriction
also matches, so the first-match scan answers WARN and the verdict is SAFE
with no triggered ingredient. -/
theorem C1_counterexample_warn_shadows_fail :
    resolvesTo regFix true "milk" = some milkFix
    ∧ "vegan" ∈ selectedIds ⟨[veganTwoRuleFix]⟩ (some ["vegan"]) Option.none
    ∧ RestrictionRegistryState.get ⟨[veganTwoRuleFix]⟩ "vegan" = some veganTwoRuleFix
    ∧ (veganTwoRuleFix.rules.get ⟨1, by decide⟩).action = RuleAction.FAIL
    ∧ evalRule milkFix (veganTwoRuleFix.rules.get ⟨1, by decide⟩) = true
    ∧ (ComplianceEngine.evaluate regFix ⟨[veganTwoRuleFix]⟩ ["milk"]
        (some ["vegan"]) Option.none [] true).status = VerdictStatus.SAFE
    ∧ (ComplianceEngine.evaluate regFix ⟨[veganTwoRuleFix]⟩ ["milk"]
        (some ["vegan"]) Option.none [] true).triggered_ingredients = [] := by
  refine ⟨by decide, by decide, rfl, by decide, by decide, by decide, by decide⟩

/-- A fixture restriction failing on animal origin. -/
def veganFailFix : Restriction :=
  { id := "vegan", rules := [⟨"animal_origin", "equals", .bool true, .FAIL⟩] }

/-- Witness for C1 amended: milk triggers NOT_SAFE on the one-rule vegan
restriction; an unknown non-trace atom makes the verdict UNCERTAIN; and a
fully resolved benign list is SAFE. -/
theorem C1_engine_status_amended_witness :
    ((ComplianceEngine.evaluate regFix ⟨[veganFailFix]⟩ ["water", "milk"]
        (some ["vegan"]) Option.none [] true).status = VerdictStatus.NOT_SAFE
      ∧ "milk" ∈ (ComplianceEngine.evaluate regFix ⟨[veganFailFix]⟩
        ["water", "milk"] (some ["vegan"]) Option.none [] true).triggered_ingredients)
    ∧ (ComplianceEngine.evaluate regFix ⟨[veganFailFix]⟩ ["water", "zzzunknown"]
        (some ["vegan"]) Option.none [] true).status = VerdictStatus.UNCERTAIN
    ∧ (ComplianceEngine.evaluate regFix ⟨[veganFailFix]⟩ ["water", "sugar"]
        (some ["vegan"]) Option.none [] true).status = VerdictStatus.SAFE := by
  refine ⟨?_, ?_, ?_⟩
  · have h := (C1_engine_status_amended regFix ⟨[veganFailFix]⟩ ["water", "milk"]
      (some ["vegan"]) Option.none [] true).1 "milk" milkFix "vegan" veganFailFix
      (by simp) (by decide) (by decide) (by decide) rfl (by decide)
    exact ⟨h.1, by simpa using h.2⟩
  · exact (C1_engine_status_amended regFix ⟨[veganFailFix]⟩ ["water", "zzzunknown"]
      (some ["vegan"]) Option.none [] true).2.1
      (by decide)
      ⟨"zzzunknown", by simp, by decide, by decide, by decide⟩
  · exact (C1_engine_status_amended regFix ⟨[veganFailFix]⟩ ["water", "sugar"]
      (some ["vegan"]) Option.none [] true).2.2 (by simp)
      (by decide)
      (by decide)

/-! ## Confidence bound lemmas for claim C2 -/

/-- The per-level weight is nonnegative. -/
theorem levelScore_nonneg (l : String) : 0 ≤ levelScore l := by
  unfold levelScore
  repeat' split
  all_goals norm_num

/-- The per-level weight is at most one. -/
theorem levelScore_le_one (l : String) : levelScore l ≤ 1 := by
  unfold levelScore
  repeat' split
  all_goals norm_num

/-- The level weights sum to at most the number of levels. -/
theorem sum_levelScore_le (ls : List String) :
    (ls.map levelScore).sum ≤ (ls.length : ℚ) := by
  induction ls with
  | nil => simp
  | cons a rest ih =>
    simp only [List.map_cons, List.sum_cons, List.length_cons]
    push_cast
    have := levelScore_le_one a
    linarith

/-- The level weights sum is nonnegative. -/
theorem sum_levelScore_nonneg (ls : List String) :
    0 ≤ (ls.map levelScore).sum := by
  induction ls with
  | nil => simp
  | cons a rest ih =>
    simp only [List.map_cons, List.sum_cons]
    have := levelScore_nonneg a
    linarith

/-- Rounding preserves a zero lower bound. -/
theorem pyRound4_nonneg {q : ℚ} (h : 0 ≤ q) : 0 ≤ pyRound4 q := by
  have h0 : ((0 : ℤ) : ℚ) / 10000 ≤ q := by simpa using h
  have := pyRound4_ge_of_ge h0
  simpa using this

/-- Rounding preserves a one upper bound. -/
theorem pyRound4_le_one {q : ℚ} (h : q ≤ 1) : pyRound4 q ≤ 1 := by
  have h0 : q ≤ ((10000 : ℤ) : ℚ) / 10000 := by push_cast; linarith
  have := pyRound4_le_of_le h0
  push_cast at this
  linarith

/-- Rounding preserves a one-fifth lower bound. -/
theorem pyRound4_ge_fifth {q : ℚ} (h : 1/5 ≤ q) : 1/5 ≤ pyRound4 q := by
  have h0 : ((2000 : ℤ) : ℚ) / 10000 ≤ q := by push_cast; linarith
  have := pyRound4_ge_of_ge h0
  push_cast at this
  linarith

/-- Rounding preserves a one-half upper bound. -/
theorem pyRound4_le_half {q : ℚ} (h : q ≤ 1/2) : pyRound4 q ≤ 1/2 := by
  have h0 : q ≤ ((5000 : ℤ) : ℚ) / 10000 := by push_cast; linarith
  have := pyRound4_le_of_le h0
  push_cast at this
  linarith

/-- Rounding preserves a two-fifths upper bound. -/
theorem pyRound4_le_two_fifths {q : ℚ} (h : q ≤ 2/5) : pyRound4 q ≤ 2/5 := by
  have h0 : q ≤ ((4000 : ℤ) : ℚ) / 10000 := by push_cast; linarith
  have := pyRound4_le_of_le h0
  push_cast at this
  linarith

/-- The effective ratio lies in the unit interval whenever the resolved
count does not exceed the total. -/
theorem effectiveRatio_bounds (total resolved : Nat)
    (levels : Option (List String)) (hres : resolved ≤ total) :
    0 ≤ effectiveRatio total resolved levels ∧
      effectiveRatio total resolved levels ≤ 1 := by
  have hfrac : 0 ≤ (resolved : ℚ) / total ∧ (resolved : ℚ) / total ≤ 1 := by
    by_cases h0 : total = 0
    · subst h0
      interval_cases resolved
      simp
    · have htot : (0 : ℚ) < total := by
        exact_mod_cast Nat.pos_of_ne_zero h0
      constructor
      · positivity
      · rw [div_le_one htot]
        exact_mod_cast hres
  unfold effectiveRatio
  rcases levels with _ | ls
  · exact hfrac
  · dsimp only
    by_cases hlen : ls.length = total
    · rw [if_pos hlen]
      by_cases h0 : total = 0
      · rw [h0] at hlen ⊢
        rcases ls with _ | ⟨a, ls⟩
        · simp
        · simp at hlen
      · have htot : (0 : ℚ) < total := by
          exact_mod_cast Nat.pos_of_ne_zero h0
        constructor
        · have := sum_levelScore_nonneg ls
          positivity
        · rw [div_le_one htot]
          calc (ls.map levelScore).sum ≤ (ls.length : ℚ) := sum_levelScore_le ls
            _ = (total : ℚ) := by rw [hlen]
    · simp only [if_neg hlen]
      exact hfrac

/-- The confidence base lies in the unit interval whenever the resolved
count does not exceed the total. -/
theorem confidenceBase_bounds (total resolved : Nat)
    (uncertain : List String) (warnings : Nat)
    (levels : Option (List String)) (hres : resolved ≤ total) :
    0 ≤ confidenceBase total resolved uncertain warnings levels ∧
      confidenceBase total resolved uncertain warnings levels ≤ 1 := by
  obtain ⟨her0, her1⟩ := effectiveRatio_bounds total resolved levels hres
  unfold confidenceBase
  have hup : 0 ≤ (uncertain.length : ℚ) * (1/10) := by positivity
  have hcp : 0 ≤ (warnings : ℚ) * (1/20) := by positivity
  have hb0 : 0 ≤ max 0 (effectiveRatio total resolved levels -
      (uncertain.length : ℚ) * (1/10) - (warnings : ℚ) * (1/20)) :=
    le_max_left 0 _
  have hb1 : max 0 (effectiveRatio total resolved levels -
      (uncertain.length : ℚ) * (1/10) - (warnings : ℚ) * (1/20)) ≤ 1 := by
    apply max_le (by norm_num)
    linarith
  split
  · exact ⟨le_min (by norm_num) hb0, le_trans (min_le_right _ _) hb1⟩
  · exact ⟨hb0, hb1⟩

/-- With an api_failed level, the confidence base is capped at two
fifths. -/
theorem confidenceBase_le_two_fifths (total resolved : Nat)
    (uncertain : List String) (warnings : Nat)
    (levels : Option (List String))
    (hapi : hasApiFailed total levels = true) :
    confidenceBase total resolved uncertain warnings levels ≤ 2/5 := by
  unfold confidenceBase
  rw [if_pos hapi]
  exact min_le_left _ _

/-- The confidence score lies in the unit interval whenever the resolved
count does not exceed the total. -/
theorem compute_confidence_bounds (total resolved : Nat)
    (uncertain : List String) (warnings : Nat)
    (levels : Option (List String)) (tobm minor : Bool)
    (status : Option VerdictStatus) (hres : resolved ≤ total) :
    0 ≤ compute_confidence total resolved uncertain warnings levels tobm
      minor status
    ∧ compute_confidence total resolved uncertain warnings levels tobm
      minor status ≤ 1 := by
  obtain ⟨hb0, hb1⟩ := confidenceBase_bounds total resolved uncertain warnings
    levels hres
  unfold compute_confidence
  by_cases h0 : total = 0
  · simp [h0]
  · rw [if_neg h0]
    dsimp only
    constructor
    · split
      · exact pyRound4_nonneg (le_trans (by norm_num)
          (le_min (by norm_num) (le_max_left (1/5) _)))
      · split
        · exact pyRound4_nonneg (le_trans (by norm_num) (le_max_left (1/5) _))
        · exact pyRound4_nonneg hb0
    · split
      · exact pyRound4_le_one (le_trans (min_le_left _ _) (by norm_num))
      · split
        · exact pyRound4_le_one (max_le (by norm_num) hb1)
        · exact pyRound4_le_one hb1

/-- The trace-only violation band: with a nonzero total, the minor-only
trigger flag and a NOT_SAFE status, the confidence lies between one fifth
and one half. -/
theorem compute_confidence_band (total resolved : Nat)
    (uncertain : List String) (warnings : Nat)
    (levels : Option (List String)) (minor : Bool) (h0 : total ≠ 0) :
    1/5 ≤ compute_confidence total resolved uncertain warnings levels true
      minor (some VerdictStatus.NOT_SAFE)
    ∧ compute_confidence total resolved uncertain warnings levels true
      minor (some VerdictStatus.NOT_SAFE) ≤ 1/2 := by
  unfold compute_confidence
  rw [if_neg h0]
  dsimp only
  rw [if_pos (by exact ⟨rfl, rfl⟩)]
  constructor
  · exact pyRound4_ge_fifth (le_min (by norm_num) (le_max_left _ _))
  · exact pyRound4_le_half (min_le_left _ _)

/-- The api_failed cap: with a nonzero total and an api_failed level seen,
the confidence is at most two fifths. -/
theorem compute_confidence_apifailed (total resolved : Nat)
    (uncertain : List String) (warnings : Nat)
    (levels : Option (List String)) (tobm minor : Bool)
    (status : Option VerdictStatus) (h0 : total ≠ 0)
    (hapi : hasApiFailed total levels = true) :
    compute_confidence total resolved uncertain warnings levels tobm minor
      status ≤ 2/5 := by
  have hcap := confidenceBase_le_two_fifths total resolved uncertain warnings
    levels hapi
  unfold compute_confidence
  rw [if_neg h0]
  dsimp only
  split
  · exact pyRound4_le_two_fifths (le_trans (min_le_right _ _)
      (max_le (by norm_num) hcap))
  · split
    · exact pyRound4_le_two_fifths (max_le (by norm_num) hcap)
    · exact pyRound4_le_two_fifths hcap

/-- The confidence score of a nonempty evaluation, written over the scan
lists. -/
theorem evaluate_confidence (ireg : RegistryState)
    (rreg : RestrictionRegistryState) (inputs : List String)
    (ids : Option (List String)) (region : Option String)
    (trace : List String) (useApi : Bool) (h : inputs ≠ []) :
    (ComplianceEngine.evaluate ireg rreg inputs ids region trace useApi).confidence_score =
      pyRound4 (compute_confidence inputs.length
        (resolveLoop ireg trace useApi inputs).resolved.length
        (resolveLoop ireg trace useApi inputs).uncertain
        (warningCount rreg (selectedIds rreg ids region)
          (resolveLoop ireg trace useApi inputs).resolved)
        (if (resolveLoop ireg trace useApi inputs).levels.length = inputs.length
          then some (resolveLoop ireg trace useApi inputs).levels
          else Option.none)
        (decide (dedupKeepFirst (rawTriggeredRestrictions rreg
            (selectedIds rreg ids region)
            (resolveLoop ireg trace useApi inputs).resolved) ≠ []) &&
          (dedupKeepFirst (rawTriggeredRestrictions rreg
            (selectedIds rreg ids region)
            (resolveLoop ireg trace useApi inputs).resolved)).all
            (fun rid => rid ∈ minorTriggeredRestrictions rreg
              (selectedIds rreg ids region)
              (resolveLoop ireg trace useApi inputs).resolved))
        (decide ((resolveLoop ireg trace useApi inputs).informational ≠ []))
        (some (if dedupKeepFirst (rawTriggeredRestrictions rreg
              (selectedIds rreg ids region)
              (resolveLoop ireg trace useApi inputs).resolved) ≠ [] then
            VerdictStatus.NOT_SAFE
          else if (resolveLoop ireg trace useApi inputs).uncertain ≠ [] then
            VerdictStatus.UNCERTAIN
          else VerdictStatus.SAFE))) := by
  unfold ComplianceEngine.evaluate
  rw [if_neg h]

/-! ## Claim C2: confidence score bands -/

/-- C2 amended: every verdict confidence lies in the unit interval; a
NOT_SAFE verdict whose every failing scan pair is a trace pair has a
confidence between one fifth and one half; and when every input string has
a nonempty key and an api_failed resolution level was recorded, the
confidence is at most two fifths. Without the nonempty-key condition the
levels list cannot be aligned with the ingredient count and the api_failed
cap is not applied. -/
theorem C2_confidence_bands_amended (ireg : RegistryState)
    (rreg : RestrictionRegistryState) (inputs : List String)
    (ids : Option (List String)) (region : Option String)
    (trace : List String) (useApi : Bool) :
    (0 ≤ (ComplianceEngine.evaluate ireg rreg inputs ids region trace
        useApi).confidence_score
      ∧ (ComplianceEngine.evaluate ireg rreg inputs ids region trace
        useApi).confidence_score ≤ 1)
    ∧ ((ComplianceEngine.evaluate ireg rreg inputs ids region trace
        useApi).status = VerdictStatus.NOT_SAFE →
      (∀ rid ∈ selectedIds rreg ids region, ∀ r, rreg.get rid = some r →
        ∀ p ∈ (resolveLoop ireg trace useApi inputs).resolved,
          (RestrictionRegistry.evaluate p.1 r).1 = "FAIL" → p.2 = true) →
      1/5 ≤ (ComplianceEngine.evaluate ireg rreg inputs ids region trace
        useApi).confidence_score
      ∧ (ComplianceEngine.evaluate ireg rreg inputs ids region trace
        useApi).confidence_score ≤ 1/2)
    ∧ ((∀ s ∈ inputs, pyKey s ≠ "") →
      "api_failed" ∈ engineLevels ireg trace useApi inputs →
      (ComplianceEngine.evaluate ireg rreg inputs ids region trace
        useApi).confidence_score ≤ 2/5) := by
  refine ⟨?_, ?_, ?_⟩
  · by_cases hne : inputs = []
    · subst hne
      rw [C10_empty_ingredients_uncertain]
      norm_num
    · rw [evaluate_confidence ireg rreg inputs ids region trace useApi hne]
      obtain ⟨h0, h1⟩ := compute_confidence_bounds inputs.length
        (resolveLoop ireg trace useApi inputs).resolved.length
        (resolveLoop ireg trace useApi inputs).uncertain _ _ _ _ _
        (resolveLoop_resolved_length ireg trace useApi inputs)
      exact ⟨pyRound4_nonneg h0, pyRound4_le_one h1⟩
  · intro hstatus hall
    by_cases hne : inputs = []
    · exfalso
      subst hne
      rw [C10_empty_ingredients_uncertain] at hstatus
      · cases hstatus
    · have htrig : dedupKeepFirst (rawTriggeredRestrictions rreg
          (selectedIds rreg ids region)
          (resolveLoop ireg trace useApi inputs).resolved) ≠ [] := by
        intro hnil
        rw [evaluate_status ireg rreg inputs ids region trace useApi hne] at hstatus
        rw [if_neg (by simp [hnil])] at hstatus
        split at hstatus <;> cases hstatus
      have htobm : (decide (dedupKeepFirst (rawTriggeredRestrictions rreg
            (selectedIds rreg ids region)
            (resolveLoop ireg trace useApi inputs).resolved) ≠ []) &&
          (dedupKeepFirst (rawTriggeredRestrictions rreg
            (selectedIds rreg ids region)
            (resolveLoop ireg trace useApi inputs).resolved)).all
            (fun rid => rid ∈ minorTriggeredRestrictions rreg
              (selectedIds rreg ids region)
              (resolveLoop ireg trace useApi inputs).resolved)) = true := by
        rw [Bool.and_eq_true]
        refine ⟨by simpa using htrig, ?_⟩
        rw [List.all_eq_true]
        intro rid hrid
        simp only [decide_eq_true_eq]
        exact rawTriggered_sub_minor rreg hall (dedupKeepFirst_subset hrid)
      rw [evaluate_confidence ireg rreg inputs ids region trace useApi hne]
      rw [htobm, if_pos htrig]
      have hlen0 : inputs.length ≠ 0 := by
        intro h
        exact hne (List.eq_nil_of_length_eq_zero h)
      obtain ⟨hb1, hb2⟩ := compute_confidence_band inputs.length
        (resolveLoop ireg trace useApi inputs).resolved.length
        (resolveLoop ireg trace useApi inputs).uncertain
        (warningCount rreg (selectedIds rreg ids region)
          (resolveLoop ireg trace useApi inputs).resolved)
        (if (resolveLoop ireg trace useApi inputs).levels.length = inputs.length
          then some (resolveLoop ireg trace useApi inputs).levels
          else Option.none)
        (decide ((resolveLoop ireg trace useApi inputs).informational ≠ []))
        hlen0
      exact ⟨pyRound4_ge_fifth hb1, pyRound4_le_half hb2⟩
  · intro hkeys hapi
    by_cases hne : inputs = []
    · exfalso
      subst hne
      simp [engineLevels, resolveLoop] at hapi
    · have hlen := resolveLoop_levels_length ireg trace useApi inputs hkeys
      rw [evaluate_confidence ireg rreg inputs ids region trace useApi hne]
      rw [if_pos hlen]
      have hlen0 : inputs.length ≠ 0 :=
        fun h => hne (List.eq_nil_of_length_eq_zero h)
      have hhaf : hasApiFailed inputs.length
          (some (resolveLoop ireg trace useApi inputs).levels) = true := by
        unfold hasApiFailed
        dsimp only
        rw [if_pos hlen]
        simpa [engineLevels] using hapi
      exact pyRound4_le_two_fifths
        (compute_confidence_apifailed _ _ _ _ _ _ _ _ hlen0 hhaf)

/-- Counterexample to C2 as stated: with a blank string among the inputs,
one api_failed resolution level is recorded, yet the levels list no longer
aligns with the ingredient count, the fallback ratio is used and the
confidence comes out at one half, above the claimed two-fifths cap. -/
theorem C2_counterexample_blank_input_breaks_cap :
    "api_failed" ∈ engineLevels regFix [] true
      ["", "water", "sugar", "milk", "zzzunknown"]
    ∧ (ComplianceEngine.evaluate regFix ⟨[]⟩
        ["", "water", "sugar", "milk", "zzzunknown"] (some []) Option.none
        [] true).confidence_score = 1/2
    ∧ ¬ ((1 : ℚ)/2 ≤ 2/5) := by
  refine ⟨by decide, ?_, by norm_num⟩
  rw [evaluate_confidence regFix ⟨[]⟩ ["", "water", "sugar", "milk", "zzzunknown"]
    (some []) Option.none [] true (by decide)]
  have h1 : (resolveLoop regFix [] true
      ["", "water", "sugar", "milk", "zzzunknown"]).resolved.length = 3 := by
    decide
  have h2 : (resolveLoop regFix [] true
      ["", "water", "sugar", "milk", "zzzunknown"]).uncertain =
      ["zzzunknown"] := by decide
  have h3 : (resolveLoop regFix [] true
      ["", "water", "sugar", "milk", "zzzunknown"]).levels.length = 4 := by
    decide
  have h4 : (resolveLoop regFix [] true
      ["", "water", "sugar", "milk", "zzzunknown"]).informational = [] := by
    decide
  have h5 : warningCount ⟨[]⟩ (selectedIds ⟨[]⟩ (some []) Option.none)
      (resolveLoop regFix [] true
        ["", "water", "sugar", "milk", "zzzunknown"]).resolved = 0 := by decide
  have h6 : rawTriggeredRestrictions ⟨[]⟩ (selectedIds ⟨[]⟩ (some []) Option.none)
      (resolveLoop regFix [] true
        ["", "water", "sugar", "milk", "zzzunknown"]).resolved = [] := by decide
  rw [h1, h2, h5, h6, h3, h4]
  norm_num [dedupKeepFirst]
  unfold compute_confidence confidenceBase effectiveRatio hasApiFailed
  norm_num
  unfold pyRound4
  norm_num

/-- Witness for C2 amended: concrete calls hitting each band: a plain safe
call stays in the unit interval, a trace-only NOT_SAFE call lands inside
the one-fifth to one-half band, and an api_failed call with nonempty keys
stays at or below two fifths. -/
theorem C2_confidence_bands_amended_witness :
    (0 ≤ (ComplianceEngine.evaluate regFix ⟨[veganFailFix]⟩ ["water"]
        (some ["vegan"]) Option.none [] true).confidence_score
      ∧ (ComplianceEngine.evaluate regFix ⟨[veganFailFix]⟩ ["water"]
        (some ["vegan"]) Option.none [] true).confidence_score ≤ 1)
    ∧ (1/5 ≤ (ComplianceEngine.evaluate regFix ⟨[veganFailFix]⟩
        ["water", "milk"] (some ["vegan"]) Option.none ["milk"]
        true).confidence_score
      ∧ (ComplianceEngine.evaluate regFix ⟨[veganFailFix]⟩
        ["water", "milk"] (some ["vegan"]) Option.none ["milk"]
        true).confidence_score ≤ 1/2)
    ∧ (ComplianceEngine.evaluate regFix ⟨[veganFailFix]⟩
        ["water", "zzzunknown"] (some ["vegan"]) Option.none []
        true).confidence_score ≤ 2/5 := by
  refine ⟨?_, ?_, ?_⟩
  · exact (C2_confidence_bands_amended regFix ⟨[veganFailFix]⟩ ["water"]
      (some ["vegan"]) Option.none [] true).1
  · exact (C2_confidence_bands_amended regFix ⟨[veganFailFix]⟩
      ["water", "milk"] (some ["vegan"]) Option.none ["milk"] true).2.1
      (by decide) (by decide)
  · exact (C2_confidence_bands_amended regFix ⟨[veganFailFix]⟩
      ["water", "zzzunknown"] (some ["vegan"]) Option.none [] true).2.2
      (by decide) (by decide)

/-! ## Parser lemmas for claim C5 -/

/-- Members of the parser dedup come from the input, are nonempty, and are
outside the seen accumulator. -/
theorem pyDedup_mem {l seen : List String} {x : String}
    (hx : x ∈ pyDedup l seen) : x ∈ l ∧ x ∉ seen ∧ x ≠ "" := by
  induction l generalizing seen with
  | nil => simp [pyDedup] at hx
  | cons a rest ih =>
    rw [pyDedup] at hx
    split at hx
    · rename_i h
      rcases List.mem_cons.1 hx with h' | h'
      · subst h'
        exact ⟨List.mem_cons_self _ _, h.2, h.1⟩
      · obtain ⟨h1, h2, h3⟩ := ih h'
        exact ⟨List.mem_cons_of_mem _ h1, fun hs => h2 (List.mem_cons_of_mem _ hs), h3⟩
    · obtain ⟨h1, h2, h3⟩ := ih hx
      exact ⟨List.mem_cons_of_mem _ h1, h2, h3⟩

/-- The parser dedup has no duplicates. -/
theorem pyDedup_nodup (l : List String) (seen : List String) :
    (pyDedup l seen).Nodup := by
  induction l generalizing seen with
  | nil => simp [pyDedup]
  | cons a rest ih =>
    rw [pyDedup]
    split
    · refine List.nodup_cons.2 ⟨?_, ih (a :: seen)⟩
      intro hmem
      exact (pyDedup_mem hmem).2.1 (List.mem_cons_self _ _)
    · exact ih seen

/-- The parser dedup is a subsequence of its input: the output preserves
the first-seen order of the input. -/
theorem pyDedup_sublist (l : List String) (seen : List String) :
    (pyDedup l seen).Sublist l := by
  induction l generalizing seen with
  | nil => simp [pyDedup]
  | cons a rest ih =>
    rw [pyDedup]
    split
    · exact List.Sublist.cons₂ a (ih (a :: seen))
    · exact List.Sublist.cons a (ih seen)

/-- The parser dedup leaves an input without duplicates, empty entries, or
seen entries unchanged. -/
theorem pyDedup_eq_self {l : List String} (seen : List String)
    (hnodup : l.Nodup) (hne : ∀ x ∈ l, x ≠ "") (hseen : ∀ x ∈ l, x ∉ seen) :
    pyDedup l seen = l := by
  induction l generalizing seen with
  | nil => rfl
  | cons a rest ih =>
    rw [pyDedup]
    rw [if_pos ⟨hne a (List.mem_cons_self _ _), hseen a (List.mem_cons_self _ _)⟩]
    congr 1
    apply ih (a :: seen) (List.nodup_cons.1 hnodup).2
      (fun x hx => hne x (List.mem_cons_of_mem _ hx))
    intro x hx
    rcases List.nodup_cons.1 hnodup with ⟨hna, _⟩
    intro hmem
    rcases List.mem_cons.1 hmem with h | h
    · exact hna (h ▸ hx)
    · exact hseen x (List.mem_cons_of_mem _ hx) h

/-- The comma-and-space join of the flattened atoms, the list shape handed
back to flatten_ingredients in the idempotence claim. -/
def joinComma : List String → String
  | [] => ""
  | [a] => a
  | a :: rest => a ++ ", " ++ joinComma rest

/-- The processed-food expansion of a found key, with its membership. -/
theorem processedLookup_mem {k : String} {v : List String}
    (h : processedLookup k = some v) : (k, v) ∈ PROCESSED_FOOD_TO_BASE := by
  unfold processedLookup at h
  rcases hf : PROCESSED_FOOD_TO_BASE.find? (fun p => p.1 = k) with _ | p
  · rw [hf] at h
    cases h
  · rw [hf] at h
    obtain ⟨hp1, hp2⟩ := List.find?_some hf, List.mem_of_find?_eq_some hf
    simp at h
    have hk : p.1 = k := by simpa using List.find?_some hf
    have : p.2 = v := by simpa using h
    have hmem := List.mem_of_find?_eq_some hf
    rw [← hk, ← this]
    exact hmem

/-- Every processed-food expansion is a duplicate-free list of clean
atoms: nonempty, normalization-fixed, strip-fixed, and free of commas and
parentheses. -/
theorem processed_values_clean : ∀ p ∈ PROCESSED_FOOD_TO_BASE, p.2.Nodup ∧
    ∀ x ∈ p.2, x ≠ "" ∧ normalize_ingredient_key x = x ∧ pyStrip x = x ∧
      (',' ∉ x.data ∧ '(' ∉ x.data ∧ ')' ∉ x.data) := by decide

/-- Every spelling-variant value is itself a clean normalization-fixed
atom. -/
theorem variant_values_clean : ∀ p ∈ KNOWN_VARIANTS,
    normalize_ingredient_key p.2 = p.2 ∧ pyStrip p.2 = p.2 ∧
      (',' ∉ p.2.data ∧ '(' ∉ p.2.data ∧ ')' ∉ p.2.data) := by decide

/-- Character order agrees with the code-point order. -/
theorem char_le_iff (a b : Char) : a ≤ b ↔ a.toNat ≤ b.toNat := Iff.rfl

/-- Lowercasing a character twice is the same as lowercasing it once. -/
theorem pyLowerChar_idem (c : Char) : pyLowerChar (pyLowerChar c) = pyLowerChar c := by
  by_cases h : 'A' ≤ c ∧ c ≤ 'Z'
  · have h90 : ('Z').toNat = 90 := rfl
    have h65 : ('A').toNat = 65 := rfl
    have hle : c.toNat ≤ 90 := by
      have h2 := (char_le_iff c 'Z').1 h.2
      omega
    have hge : 65 ≤ c.toNat := by
      have h2 := (char_le_iff 'A' c).1 h.1
      omega
    have hvalid : (c.toNat + 32).isValidChar := Or.inl (by omega)
    have hn : (Char.ofNat (c.toNat + 32)).toNat = c.toNat + 32 := by
      unfold Char.ofNat
      rw [dif_pos hvalid]
      rfl
    have houter : ¬ ('A' ≤ Char.ofNat (c.toNat + 32) ∧
        Char.ofNat (c.toNat + 32) ≤ 'Z') := by
      intro hcon
      have h3 := (char_le_iff _ 'Z').1 hcon.2
      omega
    have hc : pyLowerChar c = Char.ofNat (c.toNat + 32) := by
      unfold pyLowerChar
      rw [if_pos h]
    rw [hc]
    unfold pyLowerChar
    rw [if_neg houter]
  · have hc : pyLowerChar c = c := by
      unfold pyLowerChar
      rw [if_neg h]
    rw [hc]
    exact hc

/-- The whitespace splitter always produces at least one chunk. -/
theorem splitWsAux_ne_nil (l : List Char) : splitWsAux l ≠ [] := by
  induction l with
  | nil => simp [splitWsAux]
  | cons c rest ih =>
    rw [splitWsAux]
    rcases h : splitWsAux rest with _ | ⟨w, ws⟩
    · exact absurd h ih
    · rcases hs : isSpaceChar c <;> simp

/-- Characters of whitespace-splitter chunks are non-space characters of
the input. -/
theorem mem_splitWsAux_chars {l : List Char} {w : List Char}
    (hw : w ∈ splitWsAux l) : ∀ c ∈ w, isSpaceChar c = false ∧ c ∈ l := by
  induction l generalizing w with
  | nil =>
    simp [splitWsAux] at hw
    subst hw
    simp
  | cons a rest ih =>
    rw [splitWsAux] at hw
    rcases h : splitWsAux rest with _ | ⟨v, vs⟩
    · exact absurd h (splitWsAux_ne_nil rest)
    · rw [h] at hw
      rcases hs : isSpaceChar a
      · simp only [hs] at hw
        rcases List.mem_cons.1 hw with h' | h'
        · subst h'
          intro c hc
          rcases List.mem_cons.1 hc with h'' | h''
          · subst h''
            exact ⟨hs, List.mem_cons_self _ _⟩
          · have := ih (h ▸ List.mem_cons_self v vs) c h''
            exact ⟨this.1, List.mem_cons_of_mem _ this.2⟩
        · intro c hc
          have := ih (h ▸ List.mem_cons_of_mem v h') c hc
          exact ⟨this.1, List.mem_cons_of_mem _ this.2⟩
      · simp only [hs] at hw
        rcases List.mem_cons.1 hw with h' | h'
        · subst h'
          intro c hc
          cases hc
        · intro c hc
          have := ih (h ▸ h') c hc
          exact ⟨this.1, List.mem_cons_of_mem _ this.2⟩

/-- Words of the whitespace split are nonempty and contain only non-space
characters of the input. -/
theorem splitWs_word_facts {l w : List Char} (hw : w ∈ splitWs l) :
    w ≠ [] ∧ ∀ c ∈ w, isSpaceChar c = false ∧ c ∈ l := by
  unfold splitWs at hw
  rw [List.mem_filter] at hw
  exact ⟨by simpa using hw.2, mem_splitWsAux_chars hw.1⟩

/-- Splitting after a leading non-space word prepends it to the first
chunk. -/
theorem splitWsAux_append {w l : List Char}
    (hw : ∀ c ∈ w, isSpaceChar c = false) :
    splitWsAux (w ++ l) =
      (w ++ (splitWsAux l).headD []) :: (splitWsAux l).tail := by
  induction w with
  | nil =>
    rcases h : splitWsAux l with _ | ⟨v, vs⟩
    · exact absurd h (splitWsAux_ne_nil l)
    · simp [h]
  | cons c r ih =>
    have hc : isSpaceChar c = false := hw c (List.mem_cons_self _ _)
    have ih' := ih (fun d hd => hw d (List.mem_cons_of_mem _ hd))
    simp only [List.cons_append]
    rw [splitWsAux]
    rw [ih']
    simp [hc]

/-- Splitting the space-joined clean words recovers the words. -/
theorem splitWs_joinSpace {ws : List (List Char)}
    (h : ∀ w ∈ ws, w ≠ [] ∧ ∀ c ∈ w, isSpaceChar c = false) :
    splitWs (joinSpace ws) = ws := by
  induction ws with
  | nil => simp [joinSpace, splitWs, splitWsAux]
  | cons w rest ih =>
    rcases rest with _ | ⟨b, rest'⟩
    · show splitWs (joinSpace [w]) = [w]
      have haux : splitWsAux w = [w] := by
        have := splitWsAux_append (l := []) (h w (List.mem_cons_self _ _)).2
        simpa [splitWsAux] using this
      unfold splitWs
      rw [show joinSpace [w] = w from rfl, haux]
      simp [(h w (List.mem_cons_self _ _)).1]
    · have hjoin : joinSpace (w :: b :: rest') =
          w ++ ' ' :: joinSpace (b :: rest') := rfl
      unfold splitWs
      rw [hjoin]
      rw [splitWsAux_append (h w (List.mem_cons_self _ _)).2]
      rw [show splitWsAux (' ' :: joinSpace (b :: rest')) =
        [] :: splitWsAux (joinSpace (b :: rest')) from by
          rw [splitWsAux]
          rcases hr : splitWsAux (joinSpace (b :: rest')) with _ | ⟨v, vs⟩
          · exact absurd hr (splitWsAux_ne_nil _)
          · simp [isSpaceChar]]
      simp only [List.headD_cons, List.tail_cons, List.append_nil]
      have ihr := ih (fun v hv => h v (List.mem_cons_of_mem _ hv))
      unfold splitWs at ihr
      rw [List.filter_cons, if_pos (by
        simpa using (h w (List.mem_cons_self _ _)).1)]
      rw [ihr]

/-- A character of the space join is a space or a word character. -/
theorem mem_joinSpace_chars {ws : List (List Char)} {c : Char}
    (hc : c ∈ joinSpace ws) : c = ' ' ∨ ∃ w ∈ ws, c ∈ w := by
  induction ws with
  | nil => cases hc
  | cons w rest ih =>
    rcases rest with _ | ⟨b, rest'⟩
    · exact Or.inr ⟨w, List.mem_cons_self _ _, hc⟩
    · have hjoin : joinSpace (w :: b :: rest') =
          w ++ ' ' :: joinSpace (b :: rest') := rfl
      rw [hjoin] at hc
      rcases List.mem_append.1 hc with h' | h'
      · exact Or.inr ⟨w, List.mem_cons_self _ _, h'⟩
      · rcases List.mem_cons.1 h' with h'' | h''
        · exact Or.inl h''
        · rcases ih h'' with h3 | ⟨v, hv, hcv⟩
          · exact Or.inl h3
          · exact Or.inr ⟨v, List.mem_cons_of_mem _ hv, hcv⟩

/-- The character pipeline of normalizeWords before the word split. -/
def prepChars (l : List Char) : List Char :=
  ((l.map pyLowerChar).filter (fun c => c ≠ '*' ∧ c ≠ '.')).map punctRepl

/-- normalizeWords is the word split of the character pipeline. -/
theorem normalizeWords_eq (t : String) :
    normalizeWords t = splitWs (prepChars t.data) := rfl

/-- Every output character of the pipeline is fixed by each of its
stages and is not a comma. -/
theorem prepChars_output_fixed {l : List Char} {c : Char}
    (hc : c ∈ prepChars l) :
    pyLowerChar c = c ∧ (c ≠ '*' ∧ c ≠ '.') ∧ punctRepl c = c ∧ c ≠ ',' := by
  unfold prepChars at hc
  rw [List.mem_map] at hc
  obtain ⟨b, hb, hcb⟩ := hc
  rw [List.mem_filter] at hb
  obtain ⟨hb1, hb2⟩ := hb
  rw [List.mem_map] at hb1
  obtain ⟨a, _, hba⟩ := hb1
  subst hcb
  by_cases hp : isPunctChar b
  · have hrepl : punctRepl b = ' ' := by
      unfold punctRepl
      rw [if_pos hp]
    rw [hrepl]
    refine ⟨rfl, ⟨by decide, by decide⟩, by decide, by decide⟩
  · have hrepl : punctRepl b = b := by
      unfold punctRepl
      rw [if_neg hp]
    rw [hrepl]
    refine ⟨?_, ?_, hrepl, ?_⟩
    · rw [← hba]
      exact pyLowerChar_idem a
    · simpa using hb2
    · intro hcomma
      subst hcomma
      exact hp (by decide)

/-- A pipeline whose input characters are already fixed by each stage is
the identity. -/
theorem prepChars_eq_self {l : List Char}
    (h : ∀ c ∈ l, pyLowerChar c = c ∧ (c ≠ '*' ∧ c ≠ '.') ∧ punctRepl c = c) :
    prepChars l = l := by
  unfold prepChars
  rw [show l.map pyLowerChar = l from
    List.map_congr_left (fun c hc => (h c hc).1) |>.trans (List.map_id l)]
  rw [List.filter_eq_self.2 (fun c hc => by
    simp only [decide_eq_true_eq]
    exact ⟨(h c hc).2.1.1, (h c hc).2.1.2⟩)]
  exact List.map_congr_left (fun c hc => (h c hc).2.2) |>.trans (List.map_id l)

/-- Rebuilding a string from its characters is the identity. -/
theorem String.mk_data (s : String) : String.mk s.data = s := rfl

/-- The words of normalizeWords are nonempty and space-free. -/
theorem normalizeWords_clean (t : String) :
    ∀ w ∈ normalizeWords t, w ≠ [] ∧ ∀ c ∈ w, isSpaceChar c = false := by
  intro w hw
  rw [normalizeWords_eq] at hw
  obtain ⟨h1, h2⟩ := splitWs_word_facts hw
  exact ⟨h1, fun c hc => (h2 c hc).1⟩

/-- Every character of a basic key is fixed by every pipeline stage and is
not a comma. -/
theorem basicKey_chars {t : String} {c : Char} (hc : c ∈ (basicKey t).data) :
    pyLowerChar c = c ∧ (c ≠ '*' ∧ c ≠ '.') ∧ punctRepl c = c ∧ c ≠ ',' := by
  have hc' : c ∈ joinSpace (normalizeWords t) := hc
  rcases mem_joinSpace_chars hc' with h | ⟨w, hw, hcw⟩
  · subst h
    refine ⟨rfl, ⟨by decide, by decide⟩, by decide, by decide⟩
  · rw [normalizeWords_eq] at hw
    exact prepChars_output_fixed ((splitWs_word_facts hw).2 c hcw).2

/-- The basic key pipeline is idempotent. -/
theorem basicKey_idem (t : String) : basicKey (basicKey t) = basicKey t := by
  show String.mk (joinSpace (normalizeWords (basicKey t))) = basicKey t
  rw [normalizeWords_eq]
  rw [show (basicKey t).data = joinSpace (normalizeWords t) from rfl]
  rw [prepChars_eq_self (fun c hc => by
    have := basicKey_chars (t := t) (c := c) hc
    exact ⟨this.1, this.2.1, this.2.2.1⟩)]
  rw [splitWs_joinSpace (normalizeWords_clean t)]
  rfl

/-- Dropping by a predicate that fails at the head changes nothing. -/
theorem dropWhile_eq_self_of_head {p : Char → Bool} {l : List Char}
    (h : ∀ c, l.head? = some c → p c = false) : l.dropWhile p = l := by
  cases l with
  | nil => rfl
  | cons a rest =>
    rw [List.dropWhile_cons]
    simp [h a rfl]

/-- The head of a clean space join is not a space. -/
theorem joinSpace_head_nonspace {ws : List (List Char)}
    (h : ∀ w ∈ ws, w ≠ [] ∧ ∀ c ∈ w, isSpaceChar c = false) :
    ∀ c, (joinSpace ws).head? = some c → isSpaceChar c = false := by
  intro c hc
  rcases ws with _ | ⟨w, rest⟩
  · cases hc
  · obtain ⟨hne, hchars⟩ := h w (List.mem_cons_self _ _)
    rcases w with _ | ⟨a, w'⟩
    · exact absurd rfl hne
    · rcases rest with _ | ⟨b, rest'⟩
      · rw [show joinSpace [a :: w'] = a :: w' from rfl] at hc
        have hac : a = c := by simpa using hc
        rw [← hac]
        exact hchars a (List.mem_cons_self _ _)
      · rw [show joinSpace ((a :: w') :: b :: rest') =
          (a :: w') ++ ' ' :: joinSpace (b :: rest') from rfl] at hc
        rw [List.cons_append] at hc
        have hac : a = c := by simpa using hc
        rw [← hac]
        exact hchars a (List.mem_cons_self _ _)

/-- Appending one more word to a nonempty join appends a space and the
word. -/
theorem joinSpace_append_single {ws : List (List Char)} (v : List Char)
    (h : ws ≠ []) : joinSpace (ws ++ [v]) = joinSpace ws ++ ' ' :: v := by
  induction ws with
  | nil => exact absurd rfl h
  | cons w rest ih =>
    rcases rest with _ | ⟨b, rest'⟩
    · rfl
    · have ih' := ih (by simp)
      show joinSpace (w :: ((b :: rest') ++ [v])) =
        (w ++ ' ' :: joinSpace (b :: rest')) ++ ' ' :: v
      rw [show joinSpace (w :: ((b :: rest') ++ [v])) =
        w ++ ' ' :: joinSpace ((b :: rest') ++ [v]) from by
          rcases rest' with _ | ⟨d, r⟩ <;> rfl]
      rw [ih']
      simp

/-- The reverse of a space join is the join of the reversed words in
reverse order. -/
theorem joinSpace_reverse (ws : List (List Char)) :
    (joinSpace ws).reverse = joinSpace ((ws.map List.reverse).reverse) := by
  induction ws with
  | nil => rfl
  | cons w rest ih =>
    rcases rest with _ | ⟨b, rest'⟩
    · rfl
    · rw [show joinSpace (w :: b :: rest') =
        w ++ ' ' :: joinSpace (b :: rest') from rfl]
      rw [List.reverse_append, List.reverse_cons]
      rw [ih]
      rw [show ((w :: b :: rest').map List.reverse).reverse =
        (((b :: rest').map List.reverse).reverse) ++ [w.reverse] from by simp]
      rw [joinSpace_append_single w.reverse (by simp)]
      simp

/-- A clean space join is fixed by strip. -/
theorem stripChars_joinSpace {ws : List (List Char)}
    (h : ∀ w ∈ ws, w ≠ [] ∧ ∀ c ∈ w, isSpaceChar c = false) :
    stripChars (joinSpace ws) = joinSpace ws := by
  unfold stripChars
  rw [dropWhile_eq_self_of_head (joinSpace_head_nonspace h)]
  rw [joinSpace_reverse ws]
  rw [dropWhile_eq_self_of_head (joinSpace_head_nonspace (by
    intro w hw
    rw [List.mem_reverse, List.mem_map] at hw
    obtain ⟨v, hv, hvw⟩ := hw
    subst hvw
    obtain ⟨h1, h2⟩ := h v hv
    exact ⟨by simpa using h1, fun c hc => h2 c (List.mem_reverse.1 hc)⟩))]
  rw [← joinSpace_reverse ws, List.reverse_reverse]

/-- The basic key is fixed by strip. -/
theorem basicKey_strip_fixed (t : String) :
    pyStrip (basicKey t) = basicKey t := by
  show String.mk (stripChars (basicKey t).data) = basicKey t
  rw [show (basicKey t).data = joinSpace (normalizeWords t) from rfl]
  rw [stripChars_joinSpace (normalizeWords_clean t)]
  rfl

/-- normalize_ingredient_key is idempotent. -/
theorem normalize_idem (s : String) :
    normalize_ingredient_key (normalize_ingredient_key s) =
      normalize_ingredient_key s := by
  rcases hf : KNOWN_VARIANTS.find? (fun p => p.1 = basicKey s) with _ | p
  · have h1 : normalize_ingredient_key s = basicKey s := by
      unfold normalize_ingredient_key
      dsimp only
      rw [hf]
    rw [h1]
    unfold normalize_ingredient_key
    dsimp only
    rw [basicKey_idem s, hf]
  · have h1 : normalize_ingredient_key s = p.2 := by
      unfold normalize_ingredient_key
      dsimp only
      rw [hf]
    rw [h1]
    exact (variant_values_clean p (List.mem_of_find?_eq_some hf)).1

/-- normalize_ingredient_key output is fixed by strip. -/
theorem normalize_strip_fixed (s : String) :
    pyStrip (normalize_ingredient_key s) = normalize_ingredient_key s := by
  rcases hf : KNOWN_VARIANTS.find? (fun p => p.1 = basicKey s) with _ | p
  · have h1 : normalize_ingredient_key s = basicKey s := by
      unfold normalize_ingredient_key
      dsimp only
      rw [hf]
    rw [h1]
    exact basicKey_strip_fixed s
  · have h1 : normalize_ingredient_key s = p.2 := by
      unfold normalize_ingredient_key
      dsimp only
      rw [hf]
    rw [h1]
    exact (variant_values_clean p (List.mem_of_find?_eq_some hf)).2.1

/-- normalize_ingredient_key output contains no comma. -/
theorem normalize_no_comma (s : String) :
    ',' ∉ (normalize_ingredient_key s).data := by
  rcases hf : KNOWN_VARIANTS.find? (fun p => p.1 = basicKey s) with _ | p
  · have h1 : normalize_ingredient_key s = basicKey s := by
      unfold normalize_ingredient_key
      dsimp only
      rw [hf]
    rw [h1]
    intro hc
    exact (basicKey_chars hc).2.2.2 rfl
  · have h1 : normalize_ingredient_key s = p.2 := by
      unfold normalize_ingredient_key
      dsimp only
      rw [hf]
    rw [h1]
    exact (variant_values_clean p (List.mem_of_find?_eq_some hf)).2.2.1

/-- Without a closing parenthesis ahead, a comma always splits. -/
theorem commaSplits_of_noParen {l : List Char} (h : ∀ c ∈ l, c ≠ ')') :
    commaSplits l = true := by
  induction l with
  | nil => rfl
  | cons c rest ih =>
    rw [commaSplits]
    by_cases h1 : c = '('
    · rw [if_pos h1]
    · rw [if_neg h1, if_neg (h c (List.mem_cons_self _ _))]
      exact ih (fun d hd => h d (List.mem_cons_of_mem _ hd))

/-- The top-level comma split always produces at least one segment. -/
theorem splitTopCommas_ne_nil (l : List Char) : splitTopCommas l ≠ [] := by
  induction l with
  | nil => simp [splitTopCommas]
  | cons c rest ih =>
    rw [splitTopCommas]
    split
    · simp
    · rcases h : splitTopCommas rest with _ | ⟨seg, segs⟩
      · exact absurd h ih
      · simp

/-- A comma-free prefix joins into the first segment of the split. -/
theorem splitTopCommas_append {w l : List Char} (hw : ∀ c ∈ w, c ≠ ',') :
    splitTopCommas (w ++ l) =
      (w ++ (splitTopCommas l).headD []) :: (splitTopCommas l).tail := by
  induction w with
  | nil =>
    rcases h : splitTopCommas l with _ | ⟨seg, segs⟩
    · exact absurd h (splitTopCommas_ne_nil l)
    · simp [h]
  | cons c r ih =>
    have hc := hw c (List.mem_cons_self _ _)
    have ih' := ih (fun d hd => hw d (List.mem_cons_of_mem _ hd))
    simp only [List.cons_append]
    rw [splitTopCommas]
    rw [if_neg (by simp [hc])]
    rw [ih']

/-- A comma followed by no closing parenthesis starts a new segment. -/
theorem splitTopCommas_comma {l : List Char} (h : ∀ c ∈ l, c ≠ ')') :
    splitTopCommas (',' :: l) = [] :: splitTopCommas l := by
  rw [splitTopCommas]
  rw [if_pos ⟨rfl, commaSplits_of_noParen h⟩]

/-- The characters of a comma join are commas, spaces, or atom
characters. -/
theorem joinComma_chars {atoms : List String} {c : Char}
    (hc : c ∈ (joinComma atoms).data) :
    c = ',' ∨ c = ' ' ∨ ∃ a ∈ atoms, c ∈ a.data := by
  induction atoms with
  | nil => cases hc
  | cons a rest ih =>
    rcases rest with _ | ⟨b, rest'⟩
    · exact Or.inr (Or.inr ⟨a, List.mem_cons_self _ _, hc⟩)
    · have hdata : (joinComma (a :: b :: rest')).data =
          a.data ++ ',' :: ' ' :: (joinComma (b :: rest')).data := by
        show (a ++ ", " ++ joinComma (b :: rest')).data = _
        rw [String.data_append, String.data_append, List.append_assoc]
        rfl
      rw [hdata] at hc
      rcases List.mem_append.1 hc with h' | h'
      · exact Or.inr (Or.inr ⟨a, List.mem_cons_self _ _, h'⟩)
      · rcases List.mem_cons.1 h' with h'' | h''
        · exact Or.inl h''
        · rcases List.mem_cons.1 h'' with h3 | h3
          · exact Or.inr (Or.inl h3)
          · rcases ih h3 with h4 | h4 | ⟨v, hv, hcv⟩
            · exact Or.inl h4
            · exact Or.inr (Or.inl h4)
            · exact Or.inr (Or.inr ⟨v, List.mem_cons_of_mem _ hv, hcv⟩)

/-- The character list of a comma join of at least two atoms. -/
theorem joinComma_data (a : String) (b : String) (rest : List String) :
    (joinComma (a :: b :: rest)).data =
      a.data ++ ',' :: ' ' :: (joinComma (b :: rest)).data := by
  show (a ++ ", " ++ joinComma (b :: rest)).data = _
  rw [String.data_append, String.data_append, List.append_assoc]
  rfl

/-- The segments of the top-level comma split of a comma join: the first
atom, then each further atom with its separating space. -/
theorem splitTopCommas_joinComma (a : String) (rest : List String)
    (hcomma : ∀ x ∈ a :: rest, ∀ c ∈ x.data, c ≠ ',')
    (hparen : ∀ x ∈ a :: rest, ∀ c ∈ x.data, c ≠ ')') :
    splitTopCommas (joinComma (a :: rest)).data =
      a.data :: rest.map (fun b => ' ' :: b.data) := by
  induction rest generalizing a with
  | nil =>
    rw [show (joinComma [a]).data = a.data ++ [] from by simp [joinComma]]
    rw [splitTopCommas_append (hcomma a (List.mem_cons_self _ _))]
    simp [splitTopCommas]
  | cons b rest' ih =>
    rw [joinComma_data a b rest']
    rw [splitTopCommas_append (hcomma a (List.mem_cons_self _ _))]
    have hnoparen : ∀ c ∈ ' ' :: (joinComma (b :: rest')).data, c ≠ ')' := by
      intro c hcmem
      rcases List.mem_cons.1 hcmem with h' | h'
      · subst h'
        decide
      · rcases joinComma_chars h' with h'' | h'' | ⟨v, hv, hcv⟩
        · subst h''
          decide
        · subst h''
          decide
        · exact hparen v (List.mem_cons_of_mem _ hv) c hcv
    rw [splitTopCommas_comma hnoparen]
    rw [show (' ' :: (joinComma (b :: rest')).data) =
      [' '] ++ (joinComma (b :: rest')).data from rfl]
    rw [splitTopCommas_append (show ∀ c ∈ [' '], c ≠ ',' by decide)]
    rw [ih b (fun x hx => hcomma x (List.mem_cons_of_mem _ hx))
      (fun x hx => hparen x (List.mem_cons_of_mem _ hx))]
    simp

/-- The head of a list fixed by dropWhile fails the predicate. -/
theorem head_nonspace_of_dropWhile_eq {l : List Char}
    (hd : l.dropWhile isSpaceChar = l) :
    ∀ c, l.head? = some c → isSpaceChar c = false := by
  intro c hc
  cases l with
  | nil => cases hc
  | cons a rest =>
    have hac : a = c := by simpa using hc
    subst hac
    by_contra hcon
    have hsp : isSpaceChar a = true := by
      rcases h : isSpaceChar a
      · exact absurd h hcon
      · rfl
    rw [List.dropWhile_cons, if_pos hsp] at hd
    have hsub : (rest.dropWhile isSpaceChar).Sublist rest := List.dropWhile_sublist _
    have hlen := congrArg List.length hd
    have hle := hsub.length_le
    simp at hlen
    omega

/-- A list fixed by strip is fixed by the leading dropWhile. -/
theorem dropWhile_eq_self_of_strip {l : List Char}
    (h : stripChars l = l) : l.dropWhile isSpaceChar = l := by
  have hsub : (l.dropWhile isSpaceChar).Sublist l := List.dropWhile_sublist _
  have hsub2 : l.Sublist (l.dropWhile isSpaceChar) := by
    conv_lhs => rw [← h]
    unfold stripChars
    have h3 : (((l.dropWhile isSpaceChar).reverse.dropWhile isSpaceChar)).Sublist
        (l.dropWhile isSpaceChar).reverse := List.dropWhile_sublist _
    have h4 := h3.reverse
    rwa [List.reverse_reverse] at h4
  exact hsub.antisymm hsub2

/-- A list fixed by strip has its reverse fixed by the trailing dropWhile. -/
theorem reverse_dropWhile_eq_self_of_strip {l : List Char}
    (h : stripChars l = l) : l.reverse.dropWhile isSpaceChar = l.reverse := by
  have hd := dropWhile_eq_self_of_strip h
  have h2 : stripChars l = (l.reverse.dropWhile isSpaceChar).reverse := by
    unfold stripChars
    rw [hd]
  rw [h] at h2
  have h3 := congrArg List.reverse h2
  rw [List.reverse_reverse] at h3
  exact h3.symm

/-- The head of a strip-fixed list is not a space. -/
theorem stripChars_head_nonspace {l : List Char} (h : stripChars l = l) :
    ∀ c, l.head? = some c → isSpaceChar c = false :=
  head_nonspace_of_dropWhile_eq (dropWhile_eq_self_of_strip h)

/-- The last character of a strip-fixed list is not a space. -/
theorem stripChars_last_nonspace {l : List Char} (h : stripChars l = l) :
    ∀ c, l.getLast? = some c → isSpaceChar c = false := by
  intro c hc
  rw [← List.head?_reverse] at hc
  exact head_nonspace_of_dropWhile_eq (reverse_dropWhile_eq_self_of_strip h) c hc

/-- A list whose two ends are not spaces is fixed by strip. -/
theorem stripChars_eq_self_of_ends {l : List Char}
    (h1 : ∀ c, l.head? = some c → isSpaceChar c = false)
    (h2 : ∀ c, l.getLast? = some c → isSpaceChar c = false) :
    stripChars l = l := by
  unfold stripChars
  rw [dropWhile_eq_self_of_head h1]
  rw [dropWhile_eq_self_of_head (fun c hc => h2 c (by rwa [List.head?_reverse] at hc))]
  exact List.reverse_reverse l

/-- Prepending a space does not change the strip. -/
theorem stripChars_space_cons (l : List Char) :
    stripChars (' ' :: l) = stripChars l := by
  unfold stripChars
  rw [List.dropWhile_cons, if_pos (by decide)]

/-- A nonempty first atom makes the comma join nonempty. -/
theorem joinComma_ne_nil {a : String} (rest : List String) (ha : a.data ≠ []) :
    (joinComma (a :: rest)).data ≠ [] := by
  cases rest with
  | nil => exact ha
  | cons b rest' =>
    rw [joinComma_data]
    intro h
    rcases List.append_eq_nil.1 h with ⟨_, h2⟩
    cases h2

/-- The head of a comma join is the head of its first atom. -/
theorem joinComma_head (a : String) (rest : List String) (ha : a.data ≠ []) :
    (joinComma (a :: rest)).data.head? = a.data.head? := by
  cases rest with
  | nil => rfl
  | cons b rest' =>
    rw [joinComma_data]
    rcases hd : a.data with _ | ⟨c, cs⟩
    · exact absurd hd ha
    · rfl

/-- The head of a comma join of strip-fixed nonempty atoms is not a
space. -/
theorem joinComma_head_nonspace {a : String} (rest : List String)
    (ha : a.data ≠ []) (hfix : stripChars a.data = a.data) :
    ∀ c, (joinComma (a :: rest)).data.head? = some c → isSpaceChar c = false := by
  intro c hc
  rw [joinComma_head a rest ha] at hc
  exact stripChars_head_nonspace hfix c hc

/-- The last character of a comma join of strip-fixed nonempty atoms is
not a space. -/
theorem joinComma_last_nonspace {atoms : List String}
    (h : ∀ x ∈ atoms, x.data ≠ [] ∧ stripChars x.data = x.data) :
    ∀ c, (joinComma atoms).data.getLast? = some c → isSpaceChar c = false := by
  induction atoms with
  | nil => intro c hc; cases hc
  | cons a rest ih =>
    cases rest with
    | nil =>
      intro c hc
      exact stripChars_last_nonspace (h a (List.mem_cons_self _ _)).2 c hc
    | cons b rest' =>
      intro c hc
      rw [joinComma_data] at hc
      have hbne : (joinComma (b :: rest')).data ≠ [] :=
        joinComma_ne_nil rest' (h b (List.mem_cons_of_mem _ (List.mem_cons_self _ _))).1
      rw [show (',' :: ' ' :: (joinComma (b :: rest')).data) =
        [',', ' '] ++ (joinComma (b :: rest')).data from rfl] at hc
      rw [← List.append_assoc] at hc
      rw [List.getLast?_append_of_ne_nil _ hbne] at hc
      exact ih (fun x hx => h x (List.mem_cons_of_mem _ hx)) c hc

/-- On parenthesis-free text the split loop emits one chunk: the strip of
the pending buffer and the remaining characters, dropped if blank. -/
theorem sbpLevel_noParen (go : List Char → List String) :
    ∀ cs : List Char, (∀ c ∈ cs, c ≠ '(' ∧ c ≠ ')') →
    ∀ (buf : List Char) (out : List String),
    sbpLevel go cs 0 buf out =
      if stripChars (buf ++ cs) = [] then out
      else out ++ [String.mk (stripChars (buf ++ cs))] := by
  intro cs
  induction cs with
  | nil =>
    intro _ buf out
    rw [sbpLevel, List.append_nil]
    by_cases hb : stripChars buf = []
    · rw [if_neg (by simp [hb]), if_pos hb]
    · rw [if_pos ⟨rfl, hb⟩, if_neg hb]
  | cons c rest ih =>
    intro h buf out
    obtain ⟨h1, h2⟩ := h c (List.mem_cons_self _ _)
    rw [sbpLevel]
    rw [if_neg h1, if_neg h2]
    rw [ih (fun d hd => h d (List.mem_cons_of_mem _ hd)) (buf ++ [c]) out]
    rw [List.append_assoc, List.singleton_append]

/-- The fueled split loop on parenthesis-free text, at depth zero. -/
theorem sbpLoop_noParen (fuel : Nat) (cs : List Char)
    (h : ∀ c ∈ cs, c ≠ '(' ∧ c ≠ ')') (buf : List Char) (out : List String) :
    sbpLoop fuel cs 0 buf out =
      if stripChars (buf ++ cs) = [] then out
      else out ++ [String.mk (stripChars (buf ++ cs))] := by
  unfold sbpLoop
  exact sbpLevel_noParen (partGo fuel) cs h buf out

/-- Splitting parenthesis-free strip-fixed nonblank text by parentheses
returns the text alone. -/
theorem split_by_parentheses_noParen {s : String}
    (hne : stripChars s.data ≠ []) (hfix : stripChars s.data = s.data)
    (h : ∀ c ∈ s.data, c ≠ '(' ∧ c ≠ ')') :
    split_by_parentheses s = [s] := by
  unfold split_by_parentheses
  rw [sbpGo]
  rw [if_neg hne]
  rw [sbpLoop_noParen _ s.data h [] []]
  rw [List.nil_append]
  rw [if_neg hne, hfix, String.mk_data, List.nil_append]

/-- A clean comma segment contributes exactly its own atom. -/
theorem segAtoms_clean_atom {x : String} (hne : x ≠ "") (hstrip : pyStrip x = x)
    (hnorm : normalize_ingredient_key x = x) (hproc : processedLookup x = none)
    (hpar : ∀ c ∈ x.data, c ≠ '(' ∧ c ≠ ')') :
    segAtoms x.data = [x] := by
  have hdata : stripChars x.data = x.data := congrArg String.data hstrip
  have hdne : stripChars x.data ≠ [] := by
    rw [hdata]
    intro hd
    exact hne (by rw [← String.mk_data x, hd])
  unfold segAtoms
  dsimp only
  rw [String.mk_data, hstrip, if_neg hne]
  rw [split_by_parentheses_noParen hdne hdata hpar]
  rw [List.flatMap_cons, List.flatMap_nil, List.append_nil]
  rw [hstrip, if_neg hne, hnorm, hproc]
  show (if x ≠ "" then [x] else []) = [x]
  rw [if_pos hne]

/-- A leading space does not change a segment's atoms. -/
theorem segAtoms_space (x : String) :
    segAtoms (' ' :: x.data) = segAtoms x.data := by
  unfold segAtoms
  dsimp only
  have hseg : pyStrip (String.mk (' ' :: x.data)) = pyStrip (String.mk x.data) := by
    show String.mk (stripChars (' ' :: x.data)) = String.mk (stripChars x.data)
    rw [stripChars_space_cons]
  rw [hseg]

/-- Space-prefixed clean segments flatten back to their atoms. -/
theorem flatMap_map_space {atoms : List String}
    (h : ∀ x ∈ atoms, segAtoms (' ' :: x.data) = [x]) :
    (atoms.map (fun b => ' ' :: b.data)).flatMap segAtoms = atoms := by
  induction atoms with
  | nil => rfl
  | cons x rest ih =>
    rw [List.map_cons, List.flatMap_cons, h x (List.mem_cons_self _ _)]
    rw [ih (fun y hy => h y (List.mem_cons_of_mem _ hy))]
    rfl

/-- Every atom of a comma segment is a processed-food base or the
normalization of some string. -/
theorem mem_segAtoms {seg : List Char} {a : String} (ha : a ∈ segAtoms seg) :
    (∃ p ∈ PROCESSED_FOOD_TO_BASE, a ∈ p.2) ∨
      ∃ s : String, a = normalize_ingredient_key s := by
  unfold segAtoms at ha
  dsimp only at ha
  split at ha
  · cases ha
  · rw [List.mem_flatMap] at ha
    obtain ⟨p, _, hap⟩ := ha
    split at hap
    · cases hap
    · split at hap
      · rename_i bases hb
        exact Or.inl ⟨⟨normalize_ingredient_key (pyStrip p), bases⟩,
          processedLookup_mem hb, hap⟩
      · split at hap
        · rw [List.mem_singleton] at hap
          exact Or.inr ⟨pyStrip p, hap⟩
        · cases hap

/-- Every atom of the flat stream is a processed-food base or the
normalization of some string. -/
theorem mem_atomStream {raw : String} {a : String} (ha : a ∈ atomStream raw) :
    (∃ p ∈ PROCESSED_FOOD_TO_BASE, a ∈ p.2) ∨
      ∃ s : String, a = normalize_ingredient_key s := by
  unfold atomStream at ha
  dsimp only at ha
  split at ha
  · cases ha
  · split at ha
    · rename_i bases hb
      exact Or.inl ⟨⟨normalize_ingredient_key (pyStrip raw), bases⟩,
        processedLookup_mem hb, ha⟩
    · rw [List.mem_flatMap] at ha
      obtain ⟨seg, _, hseg⟩ := ha
      exact mem_segAtoms hseg

/-- flatten_ingredients is the deduplication of its flat atom stream, in
the processed-food branch as well (processed expansions are already
duplicate-free). -/
theorem flatten_eq_dedup (raw : String) :
    flatten_ingredients raw = pyDedup (atomStream raw) := by
  by_cases h0 : pyStrip raw = ""
  · have h1 : flatten_ingredients raw = [] := by
      unfold flatten_ingredients
      dsimp only
      rw [if_pos h0]
    have h2 : atomStream raw = [] := by
      unfold atomStream
      dsimp only
      rw [if_pos h0]
    rw [h1, h2]
    rfl
  · rcases hp : processedLookup (normalize_ingredient_key (pyStrip raw)) with _ | bases
    · unfold flatten_ingredients
      dsimp only
      rw [if_neg h0, hp]
    · have h1 : flatten_ingredients raw = bases := by
        unfold flatten_ingredients
        dsimp only
        rw [if_neg h0, hp]
      have h2 : atomStream raw = bases := by
        unfold atomStream
        dsimp only
        rw [if_neg h0, hp]
      obtain ⟨hnodup, hcl⟩ := processed_values_clean _ (processedLookup_mem hp)
      rw [h1, h2]
      exact (pyDedup_eq_self [] hnodup (fun x hx => (hcl x hx).1)
        (fun x _ => by simp)).symm

/-- Every flattened atom is nonempty, normalization-fixed, strip-fixed,
and comma-free. -/
theorem flatten_atom_facts {raw : String} :
    ∀ a ∈ flatten_ingredients raw,
      a ≠ "" ∧ normalize_ingredient_key a = a ∧ pyStrip a = a ∧
        ',' ∉ a.data := by
  intro a ha
  rw [flatten_eq_dedup] at ha
  obtain ⟨hmem, _, hne⟩ := pyDedup_mem ha
  rcases mem_atomStream hmem with ⟨p, hp, hap⟩ | ⟨s, hs⟩
  · obtain ⟨_, hcl⟩ := processed_values_clean p hp
    obtain ⟨h1, h2, h3, h4, _, _⟩ := hcl a hap
    exact ⟨h1, h2, h3, h4⟩
  · subst hs
    exact ⟨hne, normalize_idem s, normalize_strip_fixed s, normalize_no_comma s⟩

/-- The flattened list never repeats an atom. -/
theorem flatten_nodup (raw : String) : (flatten_ingredients raw).Nodup := by
  rw [flatten_eq_dedup]
  exact pyDedup_nodup _ _

/-- The flattened list preserves the first-seen order of the atom
stream. -/
theorem flatten_sublist (raw : String) :
    (flatten_ingredients raw).Sublist (atomStream raw) := by
  rw [flatten_eq_dedup]
  exact pyDedup_sublist _ _

/-- Re-flattening the comma join of a clean duplicate-free atom list
returns the list: the join strips to itself, splits back into the atoms at
the top-level commas, and each atom passes unchanged through the segment
pipeline. -/
theorem flatten_joinComma {atoms : List String}
    (hclean : ∀ a ∈ atoms, a ≠ "" ∧ normalize_ingredient_key a = a ∧
      pyStrip a = a ∧ ',' ∉ a.data ∧ '(' ∉ a.data ∧ ')' ∉ a.data)
    (hnodup : atoms.Nodup)
    (hproc : ∀ a ∈ atoms, processedLookup a = none)
    (hjoin : processedLookup (normalize_ingredient_key (joinComma atoms)) = none) :
    flatten_ingredients (joinComma atoms) = atoms := by
  rcases atoms with _ | ⟨a, rest⟩
  · show flatten_ingredients "" = []
    rfl
  · have hstrip_each : ∀ x ∈ a :: rest, x.data ≠ [] ∧ stripChars x.data = x.data := by
      intro x hx
      obtain ⟨h1, _, h3, _⟩ := hclean x hx
      refine ⟨fun hd => h1 (by rw [← String.mk_data x, hd]), congrArg String.data h3⟩
    have hcomma : ∀ x ∈ a :: rest, ∀ c ∈ x.data, c ≠ ',' := by
      intro x hx c hc hcc
      exact (hclean x hx).2.2.2.1 (hcc ▸ hc)
    have hparenR : ∀ x ∈ a :: rest, ∀ c ∈ x.data, c ≠ ')' := by
      intro x hx c hc hcc
      exact (hclean x hx).2.2.2.2.2 (hcc ▸ hc)
    have hsdata_ne : (joinComma (a :: rest)).data ≠ [] :=
      joinComma_ne_nil rest (hstrip_each a (List.mem_cons_self _ _)).1
    have hs_ne : joinComma (a :: rest) ≠ "" := by
      intro h
      apply hsdata_ne
      rw [h]
    have hstrip_s_data : stripChars (joinComma (a :: rest)).data =
        (joinComma (a :: rest)).data := by
      apply stripChars_eq_self_of_ends
      · exact joinComma_head_nonspace rest (hstrip_each a (List.mem_cons_self _ _)).1
          (hstrip_each a (List.mem_cons_self _ _)).2
      · exact joinComma_last_nonspace hstrip_each
    have hstrip_s : pyStrip (joinComma (a :: rest)) = joinComma (a :: rest) := by
      show String.mk (stripChars (joinComma (a :: rest)).data) = _
      rw [hstrip_s_data, String.mk_data]
    have hseg : ∀ x ∈ a :: rest, segAtoms x.data = [x] := by
      intro x hx
      obtain ⟨h1, h2, h3, _⟩ := hclean x hx
      refine segAtoms_clean_atom h1 h3 h2 (hproc x hx) ?_
      intro c hc
      exact ⟨fun he => (hclean x hx).2.2.2.2.1 (he ▸ hc),
        fun he => (hclean x hx).2.2.2.2.2 (he ▸ hc)⟩
    have hsegSpace : ∀ x ∈ rest, segAtoms (' ' :: x.data) = [x] := by
      intro x hx
      rw [segAtoms_space]
      exact hseg x (List.mem_cons_of_mem _ hx)
    have hstream : atomStream (joinComma (a :: rest)) = a :: rest := by
      unfold atomStream
      dsimp only
      rw [hstrip_s, if_neg hs_ne, hjoin]
      rw [splitTopCommas_joinComma a rest hcomma hparenR]
      rw [List.flatMap_cons, hseg a (List.mem_cons_self _ _),
        flatMap_map_space hsegSpace]
      rfl
    unfold flatten_ingredients
    dsimp only
    rw [hstrip_s, if_neg hs_ne, hjoin, hstream]
    show pyDedup (a :: rest) = a :: rest
    apply pyDedup_eq_self
    · exact hnodup
    · intro x hx
      exact (hclean x hx).1
    · intro x _
      simp

/-- C5 counterexample: flatten_ingredients is not idempotent. The already
flattened atom "soy sauce" of "teriyaki sauce" is itself a processed-food
key, so re-flattening the comma-joined output expands it again to
["soybean", "wheat", "salt", "water"] and returns a different list. -/
theorem C5_counterexample_reflatten :
    flatten_ingredients "teriyaki sauce" =
      ["soy sauce", "sugar", "ginger", "garlic"] ∧
    flatten_ingredients (joinComma (flatten_ingredients "teriyaki sauce")) =
      ["soybean", "wheat", "salt", "water", "sugar", "ginger", "garlic"] ∧
    flatten_ingredients (joinComma (flatten_ingredients "teriyaki sauce")) ≠
      flatten_ingredients "teriyaki sauce" := by
  refine ⟨by decide, by decide, by decide⟩

/-- C5 (amended): for every raw string, flatten_ingredients is the
first-seen deduplication of its flat atom stream — it never repeats an
atom and preserves the stream's order (a sublist). Re-flattening the
comma-joined output returns the same list provided no output atom is a
processed-food key or contains a parenthesis, and the normalization of the
joined output is not itself a processed-food key; without that proviso
idempotence fails. -/
theorem C5_flatten_amended (raw : String) :
    flatten_ingredients raw = pyDedup (atomStream raw) ∧
    (flatten_ingredients raw).Nodup ∧
    (flatten_ingredients raw).Sublist (atomStream raw) ∧
    ((∀ a ∈ flatten_ingredients raw,
        processedLookup a = none ∧ '(' ∉ a.data ∧ ')' ∉ a.data) →
      processedLookup
        (normalize_ingredient_key (joinComma (flatten_ingredients raw))) = none →
      flatten_ingredients (joinComma (flatten_ingredients raw)) =
        flatten_ingredients raw) := by
  refine ⟨flatten_eq_dedup raw, flatten_nodup raw, flatten_sublist raw, ?_⟩
  intro hcl hjoin
  apply flatten_joinComma
  · intro a ha
    obtain ⟨h1, h2, h3, h4⟩ := flatten_atom_facts a ha
    obtain ⟨_, h6, h7⟩ := hcl a ha
    exact ⟨h1, h2, h3, h4, h6, h7⟩
  · exact flatten_nodup raw
  · intro a ha
    exact (hcl a ha).1
  · exact hjoin

/-- C5 witness: the amended theorem applied at
"water, sugar (salt), milk", whose flattened atoms are clean, so
re-flattening the joined output reproduces them. -/
theorem C5_flatten_amended_witness :
    flatten_ingredients "water, sugar (salt), milk" =
      ["water", "sugar", "salt", "milk"] ∧
    flatten_ingredients (joinComma
        (flatten_ingredients "water, sugar (salt), milk")) =
      flatten_ingredients "water, sugar (salt), milk" :=
  ⟨by decide,
    (C5_flatten_amended "water, sugar (salt), milk").2.2.2 (by decide) (by decide)⟩

end IngreSure
